import Mathlib

/-!
Verification of the `async-stream-connection` crate core: the `Addr` tagged
union (src/addr.rs) with its parse/format/convert operations, and the
variant-dispatch structure of `Listener` (src/listener.rs) and `Stream`
(src/stream.rs).

Strings are modelled as `List Char`.  The standard library facilities the
crate delegates to (`std::net` numeric socket-address parsing and display,
`ToSocketAddrs` for `&str`) are embedded faithfully from their sources;
actual name resolution (DNS) and the operating-system socket calls are
external collaborators and appear as explicit oracle parameters.
-/

namespace ASC

/-- Strings are modelled as lists of characters. -/
abbrev Str := List Char

/-- Model of Rust `char::to_digit(radix)`: decimal digits, then lowercase
and uppercase letters, accepted only when the value is below the radix. -/
def charToDigit (radix : Nat) (c : Char) : Option Nat :=
  let v : Option Nat :=
    if ('0' ≤ c ∧ c ≤ '9') then some (c.toNat - 48)
    else if ('a' ≤ c ∧ c ≤ 'z') then some (c.toNat - 97 + 10)
    else if ('A' ≤ c ∧ c ≤ 'Z') then some (c.toNat - 65 + 10)
    else none
  match v with
  | some d => if d < radix then some d else none
  | none => none

/-- Whether `c` is a digit of the given radix. -/
def isRadixDigit (radix : Nat) (c : Char) : Bool := (charToDigit radix c).isSome

/-- Value of a big-endian digit string (the accumulator loop of Rust
`Parser::read_number`, with the checked-overflow test deferred). -/
def digitsVal (radix : Nat) (ds : Str) : Nat :=
  ds.foldl (fun a c => a * radix + ((charToDigit radix c).getD 0)) 0

/-- Digit printing loop (`fmt::Display` for unsigned integers /
`{:x}` lowercase hex): structurally recursive on a fuel bound. -/
def natToCharsCore (radix : Nat) : Nat → Nat → Str → Str
  | 0, _, acc => acc
  | fuel + 1, n, acc =>
    if n = 0 then acc
    else natToCharsCore radix fuel (n / radix) (Nat.digitChar (n % radix) :: acc)

/-- Canonical base-`radix` rendering of a natural number, as Rust's
integer `Display`/`LowerHex` produce it: no leading zeros, `"0"` for zero,
lowercase hex letters. -/
def natToChars (radix n : Nat) : Str :=
  if n = 0 then ['0'] else natToCharsCore radix n n []

/-- Model of Rust `Parser::read_number(radix, max_digits, allow_zero_prefix)`
at an unsigned type whose first invalid value is `bound`: consume the
maximal run of radix digits; fail on empty, on more than `max_digits`
digits, on a forbidden leading zero, or on overflow of the target type. -/
def readNumber (radix : Nat) (maxDigits : Option Nat) (allowZero : Bool)
    (bound : Nat) (cs : Str) : Option (Nat × Str) :=
  if (cs.takeWhile (isRadixDigit radix)).length = 0 then none
  else if (match maxDigits with
           | some m => decide (m < (cs.takeWhile (isRadixDigit radix)).length)
           | none => false) then none
  else if (!allowZero && ((cs.takeWhile (isRadixDigit radix)).head? = some '0' : Bool) &&
           decide (1 < (cs.takeWhile (isRadixDigit radix)).length)) then none
  else if digitsVal radix (cs.takeWhile (isRadixDigit radix)) < bound then
    some (digitsVal radix (cs.takeWhile (isRadixDigit radix)), cs.dropWhile (isRadixDigit radix))
  else none

/-- Model of Rust `Parser::read_given_char`. -/
def readGivenChar (t : Char) : Str → Option Str
  | [] => none
  | c :: rest => if c = t then some rest else none

/-- Model of Rust `Parser::read_separator`: require the separator character
first when the group index is positive, then run the inner reader. -/
def readSep (sep : Char) (needSep : Bool) (inner : Str → Option (α × Str))
    (cs : Str) : Option (α × Str) :=
  if needSep then
    match readGivenChar sep cs with
    | some rest => inner rest
    | none => none
  else inner cs

/-- One IPv4 octet: base 10, at most 3 digits, no leading zero, below 256. -/
def readOctet : Str → Option (Nat × Str) := readNumber 10 (some 3) false 256

/-- Model of Rust `Parser::read_ipv4_addr`: four octets separated by `.`. -/
def readIpv4 (cs : Str) : Option ((Nat × Nat × Nat × Nat) × Str) :=
  match readOctet cs with
  | none => none
  | some (a, cs) =>
    match readGivenChar '.' cs with
    | none => none
    | some cs =>
      match readOctet cs with
      | none => none
      | some (b, cs) =>
        match readGivenChar '.' cs with
        | none => none
        | some cs =>
          match readOctet cs with
          | none => none
          | some (c, cs) =>
            match readGivenChar '.' cs with
            | none => none
            | some cs =>
              match readOctet cs with
              | none => none
              | some (d, cs) => some ((a, b, c, d), cs)

/-- One IPv6 group: base 16, at most 4 digits, zero prefix allowed. -/
def readGroup : Str → Option (Nat × Str) := readNumber 16 (some 4) true 65536

/-- Model of the `read_groups` helper inside Rust
`Parser::read_ipv6_addr`: read up to `n` colon-separated 16-bit groups,
where a trailing embedded IPv4 address may fill the last two of at least
two remaining slots; returns the groups read, whether the run ended with
an embedded IPv4 address, and the remaining input. -/
def readGroups : Nat → Bool → Str → (List Nat × Bool × Str)
  | 0, _, cs => ([], false, cs)
  | n + 1, needSep, cs =>
    match (if 1 ≤ n then readSep ':' needSep readIpv4 cs else none) with
    | some ((a, b, c, d), rest) => ([a * 256 + b, c * 256 + d], true, rest)
    | none =>
      match readSep ':' needSep readGroup cs with
      | some (g, rest) =>
        match readGroups n true rest with
        | (gs, endV4, r) => (g :: gs, endV4, r)
      | none => ([], false, cs)

/-- Model of Rust `Parser::read_ipv6_addr`: a full run of 8 groups, or a
shorter head, a literal `::`, and a tail of at most `8 - head - 1` groups,
with the elided middle groups zero. -/
def readIpv6 (cs : Str) : Option (List Nat × Str) :=
  match readGroups 8 false cs with
  | (head, headV4, rest) =>
    if head.length = 8 then some (head, rest)
    else if headV4 then none
    else
      match readGivenChar ':' rest with
      | none => none
      | some rest1 =>
        match readGivenChar ':' rest1 with
        | none => none
        | some rest2 =>
          match readGroups (8 - (head.length + 1)) false rest2 with
          | (tail, _, rest3) =>
            some (head ++ List.replicate (8 - head.length - tail.length) 0 ++ tail, rest3)

/-- A resolved IPv4 socket address: four octets and a 16-bit port. -/
structure SocketAddrV4 where
  ip : Nat × Nat × Nat × Nat
  port : Nat
deriving DecidableEq, Repr

/-- A resolved IPv6 socket address: eight 16-bit groups, a 16-bit port,
a flow label and a scope id, as in `std::net::SocketAddrV6`. -/
structure SocketAddrV6 where
  segs : List Nat
  port : Nat
  flowinfo : Nat
  scope : Nat
deriving DecidableEq, Repr

/-- Model of `std::net::SocketAddr`. -/
inductive SocketAddr where
  | v4 (a : SocketAddrV4)
  | v6 (a : SocketAddrV6)
deriving DecidableEq, Repr

/-- Model of Rust `Parser::read_port`: a `:` then a base-10 `u16`. -/
def readPort (cs : Str) : Option (Nat × Str) :=
  match readGivenChar ':' cs with
  | some rest => readNumber 10 none true 65536 rest
  | none => none

/-- Model of Rust `Parser::read_scope_id`: a `%` then a base-10 `u32`. -/
def readScopeId (cs : Str) : Option (Nat × Str) :=
  match readGivenChar '%' cs with
  | some rest => readNumber 10 none true 4294967296 rest
  | none => none

/-- Model of Rust `Parser::read_socket_addr_v4`: IPv4 address then port. -/
def readSocketAddrV4 (cs : Str) : Option (SocketAddrV4 × Str) :=
  match readIpv4 cs with
  | none => none
  | some (ip, cs) =>
    match readPort cs with
    | none => none
    | some (port, cs) => some (⟨ip, port⟩, cs)

/-- Model of Rust `Parser::read_socket_addr_v6`: `[`, IPv6 address, an
optional `%scope`, `]`, then the port; flow label is set to zero. -/
def readSocketAddrV6 (cs : Str) : Option (SocketAddrV6 × Str) :=
  match readGivenChar '[' cs with
  | none => none
  | some cs =>
    match readIpv6 cs with
    | none => none
    | some (segs, cs) =>
      match (match readScopeId cs with
             | some (s, r) => (s, r)
             | none => ((0 : Nat), cs)) with
      | (scope, cs) =>
        match readGivenChar ']' cs with
        | none => none
        | some cs =>
          match readPort cs with
          | none => none
          | some (port, cs) => some (⟨segs, port, 0, scope⟩, cs)

/-- Model of Rust `Parser::read_socket_addr`: try IPv4 form, else IPv6. -/
def readSocketAddr (cs : Str) : Option (SocketAddr × Str) :=
  match readSocketAddrV4 cs with
  | some (a, r) => some (.v4 a, r)
  | none =>
    match readSocketAddrV6 cs with
    | some (a, r) => some (.v6 a, r)
    | none => none

/-- Model of `std::net::SocketAddr::from_str` (`parse_with`): the reader
must consume the whole string. -/
def parseSocketAddr (cs : Str) : Option SocketAddr :=
  match readSocketAddr cs with
  | some (a, []) => some a
  | _ => none

/-- Display of `std::net::Ipv4Addr`: dotted decimal octets. -/
def ipv4ToChars (ip : Nat × Nat × Nat × Nat) : Str :=
  match ip with
  | (a, b, c, d) =>
    natToChars 10 a ++ '.' :: (natToChars 10 b ++ '.' :: (natToChars 10 c ++ '.' :: natToChars 10 d))

/-- A run of zero groups, as in the span-search loop of the
`std::net::Ipv6Addr` display code. -/
structure Span where
  start : Nat
  len : Nat
deriving DecidableEq, Repr

/-- The zero-run search loop of `std::net::Ipv6Addr` display: longest run
of zero groups, the leftmost one on ties (replacement only when strictly
longer). -/
def zeroRunAux : List Nat → Nat → Span → Span → Span
  | [], _, _, longest => longest
  | s :: rest, i, current, longest =>
    if s = 0 then
      match (⟨if current.len = 0 then i else current.start, current.len + 1⟩ : Span) with
      | cur2 =>
        zeroRunAux rest (i + 1) cur2 (if longest.len < cur2.len then cur2 else longest)
    else zeroRunAux rest (i + 1) ⟨0, 0⟩ longest

/-- Longest zero-group run of a segment list. -/
def findZeroRun (segs : List Nat) : Span := zeroRunAux segs 0 ⟨0, 0⟩ ⟨0, 0⟩

/-- Hex rendering of the groups of an IPv6 address joined by `:` (the
`fmt_subslice` loop of the `std::net::Ipv6Addr` display code). -/
def joinColon : List Nat → Str
  | [] => []
  | [g] => natToChars 16 g
  | g :: gs => natToChars 16 g ++ ':' :: joinColon gs

/-- The `to_ipv4_mapped` test of `std::net::Ipv6Addr`: the first six
groups are `[0, 0, 0, 0, 0, 0xffff]` (the length condition is the segment
array's type invariant in Rust). -/
def isIpv4Mapped (segs : List Nat) : Bool :=
  decide (segs.take 6 = [0, 0, 0, 0, 0, 65535]) && decide (segs.length = 8)

/-- Display of `std::net::Ipv6Addr`: the IPv4-mapped special form
`::ffff:a.b.c.d`, else the longest zero run (when longer than one group)
compressed to `::`, else all eight groups. -/
def ipv6ToChars (segs : List Nat) : Str :=
  if isIpv4Mapped segs then
    "::ffff:".data ++
      ipv4ToChars (segs.getD 6 0 / 256, segs.getD 6 0 % 256, segs.getD 7 0 / 256, segs.getD 7 0 % 256)
  else
    match findZeroRun segs with
    | z =>
      if 1 < z.len then
        joinColon (segs.take z.start) ++ (':' :: ':' :: joinColon (segs.drop (z.start + z.len)))
      else joinColon segs

/-- Display of `std::net::SocketAddrV4`: `ip:port`. -/
def socketAddrV4ToChars (a : SocketAddrV4) : Str :=
  ipv4ToChars a.ip ++ ':' :: natToChars 10 a.port

/-- Display of `std::net::SocketAddrV6`: bracketed address, with `%scope`
inside the brackets when the scope id is nonzero; the flow label is not
rendered. -/
def socketAddrV6ToChars (a : SocketAddrV6) : Str :=
  if a.scope = 0 then '[' :: (ipv6ToChars a.segs ++ ']' :: ':' :: natToChars 10 a.port)
  else '[' :: (ipv6ToChars a.segs ++ '%' :: (natToChars 10 a.scope ++ ']' :: ':' :: natToChars 10 a.port))

/-- Display of `std::net::SocketAddr`. -/
def socketAddrToChars : SocketAddr → Str
  | .v4 a => socketAddrV4ToChars a
  | .v6 a => socketAddrV6ToChars a

/-- Whether a socket address is the IPv6 variant. -/
def SocketAddr.isV6 : SocketAddr → Bool
  | .v4 _ => false
  | .v6 _ => true

/-- The text a group run is embedded in: the joined groups (with a
leading separator when the group index is positive and there is a group)
followed by the trailing text. -/
def sepJoin : Bool → List Nat → Str → Str
  | _, [], rest => rest
  | false, g :: gs, rest => joinColon (g :: gs) ++ rest
  | true, g :: gs, rest => ':' :: (joinColon (g :: gs) ++ rest)

/-- Trailing texts at which the group-reading loop stops: end of input,
a `::` marker, a closing bracket, or a scope marker. -/
def StopText (cs : Str) : Prop :=
  cs = [] ∨ (∃ t, cs = ':' :: ':' :: t) ∨ (∃ t, cs = ']' :: t) ∨ (∃ t, cs = '%' :: t)

/-- A span all of whose positions hold zero groups, within bounds. -/
def ZeroSpan (segs : List Nat) (z : Span) : Prop :=
  z.start + z.len ≤ segs.length ∧ ∀ j, j < z.len → segs.get? (z.start + j) = some 0

/-- Well-formedness of a socket address as guaranteed by the parser:
all numeric components within their machine-integer ranges, eight IPv6
groups, and a zero flow label. -/
def SockWF : SocketAddr → Prop
  | .v4 x =>
    match x.ip with
    | (a, b, c, d) => a < 256 ∧ b < 256 ∧ c < 256 ∧ d < 256 ∧ x.port < 65536
  | .v6 x =>
    x.segs.length = 8 ∧ (∀ g ∈ x.segs, g < 65536) ∧ x.port < 65536 ∧
      x.flowinfo = 0 ∧ x.scope < 4294967296

/-- Model of `std::io::Error` as the crate observes it: the
`AddrNotAvailable` kind it constructs itself, or an arbitrary system
error propagated from a collaborator. -/
inductive IOErr where
  | addrNotAvailable
  | sys (code : Nat)
deriving DecidableEq, Repr

/-- A name-resolution oracle: the fallible lookup performed by
`std::net` for non-numeric `host:port` text (zero or more candidates, or
a system error). -/
abbrev Resolver := Str → Except IOErr (List SocketAddr)

/-- Model of `ToSocketAddrs for &str`: numeric socket-address text yields
exactly that one address without consulting the resolver; anything else
is handed to the resolver. -/
def toSocketAddrs (resolve : Resolver) (v : Str) : Except IOErr (List SocketAddr) :=
  match parseSocketAddr v with
  | some a => .ok [a]
  | none => resolve v

/-- The crate's `Addr` enum: an IP socket address or (on Unix) a
filesystem path for a local-domain socket; `PathBuf` is modelled as the
path text. -/
inductive Addr where
  | Inet (a : SocketAddr)
  | Unix (path : Str)
deriving DecidableEq, Repr

/-- Model of `<Addr as FromStr>::from_str`: text starting with `/` or
`./` becomes `Unix` verbatim; otherwise the first candidate of
`to_socket_addrs`, with `AddrNotAvailable` when there are none. -/
def Addr.fromStr (resolve : Resolver) (v : Str) : Except IOErr Addr :=
  if ['/'].isPrefixOf v || ['.', '/'].isPrefixOf v then .ok (.Unix v)
  else
    match toSocketAddrs resolve v with
    | .error e => .error e
    | .ok l =>
      match l with
      | a :: _ => .ok (.Inet a)
      | [] => .error .addrNotAvailable

/-- Model of `<Addr as fmt::Display>::fmt`: socket-address display for
`Inet`, the (lossy) path text for `Unix`. -/
def Addr.display : Addr → Str
  | .Inet a => socketAddrToChars a
  | .Unix p => p

/-- A Unix-domain socket address as returned by the OS: a pathname, or
unnamed/anonymous. -/
structure UnixSocketAddr where
  pathname : Option Str
deriving DecidableEq, Repr

/-- Model of `From<unix::SocketAddr> for Addr` (and its tokio twin): an
unnamed address becomes the fixed placeholder path `unnamed`. -/
def Addr.fromUnixSocketAddr (s : UnixSocketAddr) : Addr :=
  match s.pathname with
  | none => .Unix ("unnamed".data)
  | some p => .Unix p

/-- Model of `From<&Path> for Addr` / `From<PathBuf> for Addr`. -/
def Addr.fromPath (p : Str) : Addr := .Unix p

/-- Model of `From<net::SocketAddr> for Addr`. -/
def Addr.fromSocketAddr (s : SocketAddr) : Addr := .Inet s

/-- Whether an `Addr` is the `Inet` variant. -/
def Addr.isInet : Addr → Bool
  | .Inet _ => true
  | .Unix _ => false

/-- Whether an `Addr` is the `Unix` variant. -/
def Addr.isUnix : Addr → Bool
  | .Inet _ => false
  | .Unix _ => true

/-- Structural encoding of an `Addr` fed to a hasher by the derived
`Hash` impl: variant discriminant, then the payload bytes. -/
def Addr.hashStream : Addr → List Nat
  | .Inet (.v4 a) =>
    match a.ip with
    | (x, y, z, w) => [0, 0, x, y, z, w, a.port]
  | .Inet (.v6 a) => [0, 1] ++ a.segs ++ [a.port, a.flowinfo, a.scope]
  | .Unix p => 1 :: p.map Char.toNat

/-- Opaque handle of a `tokio::net::TcpListener`. -/
structure TcpListenerH where
  fd : Nat
deriving DecidableEq, Repr

/-- Opaque handle of a `tokio::net::UnixListener`. -/
structure UnixListenerH where
  fd : Nat
deriving DecidableEq, Repr

/-- Opaque handle of a `tokio::net::TcpStream`. -/
structure TcpStreamH where
  fd : Nat
deriving DecidableEq, Repr

/-- Opaque handle of a `tokio::net::UnixStream`. -/
structure UnixStreamH where
  fd : Nat
deriving DecidableEq, Repr

/-- The external collaborators (tokio socket primitives, filesystem
removal) as an oracle record: each field is the outcome function of one
native operation the crate delegates to. -/
structure Net where
  tcpBind : SocketAddr → Except IOErr TcpListenerH
  unixBind : Str → Except IOErr UnixListenerH
  tcpAccept : TcpListenerH → Except IOErr (TcpStreamH × SocketAddr)
  unixAccept : UnixListenerH → Except IOErr (UnixStreamH × UnixSocketAddr)
  tcpConnect : SocketAddr → Except IOErr TcpStreamH
  unixConnect : Str → Except IOErr UnixStreamH
  tcpLocalAddr : TcpStreamH → Except IOErr SocketAddr
  unixLocalAddr : UnixStreamH → Except IOErr UnixSocketAddr
  tcpPeerAddr : TcpStreamH → Except IOErr SocketAddr
  unixPeerAddr : UnixStreamH → Except IOErr UnixSocketAddr
  unixListenerLocalAddr : UnixListenerH → Except IOErr UnixSocketAddr
  removeFile : Str → Except IOErr Unit

/-- The crate's `Listener` enum (src/listener.rs). -/
inductive Listener where
  | Inet (h : TcpListenerH)
  | Unix (h : UnixListenerH)
deriving DecidableEq, Repr

/-- The crate's `Stream` enum (src/stream.rs). -/
inductive Stream where
  | Inet (h : TcpStreamH)
  | Unix (h : UnixStreamH)
deriving DecidableEq, Repr

/-- Whether a `Listener` is the `Inet` variant. -/
def Listener.isInet : Listener → Bool
  | .Inet _ => true
  | .Unix _ => false

/-- Whether a `Listener` is the `Unix` variant. -/
def Listener.isUnix : Listener → Bool
  | .Inet _ => false
  | .Unix _ => true

/-- Whether a `Stream` is the `Inet` variant. -/
def Stream.isInet : Stream → Bool
  | .Inet _ => true
  | .Unix _ => false

/-- Whether a `Stream` is the `Unix` variant. -/
def Stream.isUnix : Stream → Bool
  | .Inet _ => false
  | .Unix _ => true

/-- Model of `Listener::bind`: dispatch on the address variant to the
corresponding native bind, wrapping the handle in the same variant. -/
def Listener.bind (net : Net) : Addr → Except IOErr Listener
  | .Inet s => (net.tcpBind s).map .Inet
  | .Unix s => (net.unixBind s).map .Unix

/-- Model of `Listener::accept`: dispatch on the listener variant; the
peer address is wrapped as `Addr::Inet` for TCP and converted through
`From<unix::SocketAddr>` for Unix. -/
def Listener.accept (net : Net) : Listener → Except IOErr (Stream × Addr)
  | .Inet h => (net.tcpAccept h).map (fun p => (.Inet p.1, .Inet p.2))
  | .Unix h => (net.unixAccept h).map (fun p => (.Unix p.1, Addr.fromUnixSocketAddr p.2))

/-- Model of `Stream::connect`: dispatch on the address variant. -/
def Stream.connect (net : Net) : Addr → Except IOErr Stream
  | .Inet s => (net.tcpConnect s).map .Inet
  | .Unix s => (net.unixConnect s).map .Unix

/-- Model of `Stream::local_addr`. -/
def Stream.localAddr (net : Net) : Stream → Except IOErr Addr
  | .Inet h => (net.tcpLocalAddr h).map .Inet
  | .Unix h => (net.unixLocalAddr h).map Addr.fromUnixSocketAddr

/-- Model of `Stream::peer_addr`. -/
def Stream.peerAddr (net : Net) : Stream → Except IOErr Addr
  | .Inet h => (net.tcpPeerAddr h).map .Inet
  | .Unix h => (net.unixPeerAddr h).map Addr.fromUnixSocketAddr

/-- Observable outcome of `Drop for Listener`. -/
inductive DropOutcome where
  | noAction
  | removed (path : Str)
  | panicked (path : Str)
deriving DecidableEq, Repr

/-- Model of `Drop for Listener` (src/listener.rs lines 60-71): nothing
for `Inet`; for `Unix`, a failed `local_addr` query or an unnamed address
is silently skipped (`if let Ok`/`if let Some`), while a failed
`remove_file` panics through `unwrap`. -/
def Listener.dropOutcome (net : Net) : Listener → DropOutcome
  | .Inet _ => .noAction
  | .Unix l =>
    match net.unixListenerLocalAddr l with
    | .error _ => .noAction
    | .ok a =>
      match a.pathname with
      | none => .noAction
      | some p =>
        match net.removeFile p with
        | .ok _ => .removed p
        | .error _ => .panicked p

/-- A value offered by a serde deserializer: self-describing text, or
some non-text value. -/
inductive DeValue where
  | str (s : Str)
  | notStr
deriving DecidableEq, Repr

/-- A serde decode error: a custom error wrapping the parse failure, or
a type error naming the expected shape. -/
inductive DeError where
  | custom (e : IOErr)
  | invalidType (expected : Str)
deriving DecidableEq, Repr

/-- The `expecting` text of the `Deserialize for Addr` visitor. -/
def Addr.expectingText : Str := "a Socket Address".data

/-- Model of `Deserialize for Addr` (src/addr.rs lines 99-123): the
visitor accepts exactly one text value and runs `Addr::from_str` on it,
wrapping failures as custom errors; any non-text value is rejected with
a type error naming the visitor's `expecting` text. -/
def Addr.deserialize (resolve : Resolver) : DeValue → Except DeError Addr
  | .str s =>
    match Addr.fromStr resolve s with
    | .ok a => .ok a
    | .error e => .error (.custom e)
  | .notStr => .error (.invalidType Addr.expectingText)

/-- Fixture: a collaborator oracle where every native operation fails. -/
def errNet : Net :=
  ⟨fun _ => .error (.sys 1), fun _ => .error (.sys 1), fun _ => .error (.sys 1),
   fun _ => .error (.sys 1), fun _ => .error (.sys 1), fun _ => .error (.sys 1),
   fun _ => .error (.sys 1), fun _ => .error (.sys 1), fun _ => .error (.sys 1),
   fun _ => .error (.sys 1), fun _ => .error (.sys 1), fun _ => .error (.sys 1)⟩

/-- Fixture: a collaborator oracle where every native operation succeeds;
Unix accepts report an unnamed peer, the Unix listener is bound at
`/tmp/s`. -/
def okNet : Net :=
  ⟨fun _ => .ok ⟨0⟩, fun _ => .ok ⟨1⟩,
   fun _ => .ok (⟨2⟩, .v4 ⟨(127, 0, 0, 1), 80⟩), fun _ => .ok (⟨3⟩, ⟨none⟩),
   fun _ => .ok ⟨4⟩, fun _ => .ok ⟨5⟩,
   fun _ => .ok (.v4 ⟨(127, 0, 0, 1), 80⟩), fun _ => .ok ⟨none⟩,
   fun _ => .ok (.v4 ⟨(127, 0, 0, 1), 80⟩), fun _ => .ok ⟨some ("/tmp/s".data)⟩,
   fun _ => .ok ⟨some ("/tmp/s".data)⟩, fun _ => .ok ()⟩

/-- Fixture: a resolver returning two candidates. -/
def resolverTwo : Resolver :=
  fun _ => .ok [.v4 ⟨(93, 184, 216, 34), 80⟩, .v4 ⟨(1, 1, 1, 1), 80⟩]

/-- Fixture: a resolver returning no candidates. -/
def resolverEmpty : Resolver := fun _ => .ok []

/-- Fixture: a resolver failing with a system error. -/
def resolverErr : Resolver := fun _ => .error (.sys 11)

/-- An `Addr` converted from a Unix socket address is always the `Unix`
variant. -/
theorem fromUnixSocketAddr_isUnix (s : UnixSocketAddr) :
    (Addr.fromUnixSocketAddr s).isUnix = true := by
  unfold Addr.fromUnixSocketAddr
  cases s.pathname <;> rfl

/-- Claim C1: for every text beginning with `/` or `./`, parsing succeeds
unconditionally and yields the `Unix` variant carrying the remaining text
verbatim as the path, with no existence check and — as the result holds
for every resolver — no name resolution performed. -/
theorem claim_C1 (v : Str)
    (h : ['/'].isPrefixOf v = true ∨ ['.', '/'].isPrefixOf v = true)
    (resolve : Resolver) : Addr.fromStr resolve v = .ok (.Unix v) := by
  rcases h with h | h <;> simp [Addr.fromStr, h]

/-- Witness for claim C1 at the concrete text `/run/app.sock` and a
failing resolver. -/
theorem claim_C1_witness :
    (['/'].isPrefixOf ("/run/app.sock".data) = true)
  ∧ Addr.fromStr resolverErr ("/run/app.sock".data) = .ok (.Unix ("/run/app.sock".data)) :=
  ⟨by decide, claim_C1 ("/run/app.sock".data) (Or.inl (by decide)) resolverErr⟩

/-- Claim C2: for text not beginning with `/` or `./`, parsing consults
the standard resolution facility (`to_socket_addrs`): a resolution error
is propagated unchanged, zero candidates fail with `AddrNotAvailable`,
and otherwise exactly the first candidate is kept as `Inet`. -/
theorem claim_C2 (v : Str) (resolve : Resolver)
    (h1 : ['/'].isPrefixOf v = false) (h2 : ['.', '/'].isPrefixOf v = false) :
    (∀ e, toSocketAddrs resolve v = .error e → Addr.fromStr resolve v = .error e)
  ∧ (toSocketAddrs resolve v = .ok [] → Addr.fromStr resolve v = .error .addrNotAvailable)
  ∧ (∀ a l, toSocketAddrs resolve v = .ok (a :: l) → Addr.fromStr resolve v = .ok (.Inet a)) := by
  refine ⟨?_, ?_, ?_⟩
  · intro e he
    simp [Addr.fromStr, h1, h2, he]
  · intro he
    simp [Addr.fromStr, h1, h2, he]
  · intro a l he
    simp [Addr.fromStr, h1, h2, he]

/-- Witness for claim C2 at the concrete text `example.com:80` with a
failing resolver, an empty resolver, and a two-candidate resolver. -/
theorem claim_C2_witness :
    (['/'].isPrefixOf ("example.com:80".data) = false)
  ∧ (['.', '/'].isPrefixOf ("example.com:80".data) = false)
  ∧ Addr.fromStr resolverErr ("example.com:80".data) = .error (.sys 11)
  ∧ Addr.fromStr resolverEmpty ("example.com:80".data) = .error .addrNotAvailable
  ∧ Addr.fromStr resolverTwo ("example.com:80".data) = .ok (.Inet (.v4 ⟨(93, 184, 216, 34), 80⟩)) :=
  ⟨by decide, by decide,
   (claim_C2 ("example.com:80".data) resolverErr (by decide) (by decide)).1 (.sys 11) rfl,
   (claim_C2 ("example.com:80".data) resolverEmpty (by decide) (by decide)).2.1 rfl,
   (claim_C2 ("example.com:80".data) resolverTwo (by decide) (by decide)).2.2
     (.v4 ⟨(93, 184, 216, 34), 80⟩) [.v4 ⟨(1, 1, 1, 1), 80⟩] rfl⟩

/-- Counterexample to claim C3 as stated: a Unix listener whose
`local_addr` query fails is dropped with no filesystem action and no
abort — the failure is silently ignored by the `if let Ok` pattern, not
treated as fatal. -/
theorem claim_C3_cex :
    errNet.unixListenerLocalAddr ⟨9⟩ = .error (.sys 1)
  ∧ Listener.dropOutcome errNet (.Unix ⟨9⟩) = .noAction := ⟨rfl, rfl⟩

/-- Claim C3 (amended): on destruction of a `Unix` listener the bound
path is queried from the handle; a failed query or an unnamed address is
silently ignored (no filesystem action, no abort); when a pathname is
obtained it is removed, and only a failed removal is fatal (abort via
`unwrap`). Destruction of an `Inet` listener performs no filesystem
action. -/
theorem claim_C3 (net : Net) :
    (∀ h, Listener.dropOutcome net (.Inet h) = .noAction)
  ∧ (∀ l e, net.unixListenerLocalAddr l = .error e →
      Listener.dropOutcome net (.Unix l) = .noAction)
  ∧ (∀ l a, net.unixListenerLocalAddr l = .ok a → a.pathname = none →
      Listener.dropOutcome net (.Unix l) = .noAction)
  ∧ (∀ l a p, net.unixListenerLocalAddr l = .ok a → a.pathname = some p →
      net.removeFile p = .ok () → Listener.dropOutcome net (.Unix l) = .removed p)
  ∧ (∀ l a p e, net.unixListenerLocalAddr l = .ok a → a.pathname = some p →
      net.removeFile p = .error e → Listener.dropOutcome net (.Unix l) = .panicked p) := by
  refine ⟨fun h => rfl, ?_, ?_, ?_, ?_⟩
  · intro l e hq
    simp [Listener.dropOutcome, hq]
  · intro l a hq hp
    simp [Listener.dropOutcome, hq, hp]
  · intro l a p hq hp hr
    simp [Listener.dropOutcome, hq, hp, hr]
  · intro l a p e hq hp hr
    simp [Listener.dropOutcome, hq, hp, hr]

/-- Witness for claim C3: with the all-succeeding oracle, dropping the
Unix listener removes its bound path `/tmp/s`. -/
theorem claim_C3_witness :
    okNet.unixListenerLocalAddr ⟨1⟩ = .ok ⟨some ("/tmp/s".data)⟩
  ∧ okNet.removeFile ("/tmp/s".data) = .ok ()
  ∧ Listener.dropOutcome okNet (.Unix ⟨1⟩) = .removed ("/tmp/s".data) :=
  ⟨rfl, rfl,
   (claim_C3 okNet).2.2.2.1 ⟨1⟩ ⟨some ("/tmp/s".data)⟩ ("/tmp/s".data) rfl rfl rfl⟩

/-- Claim C5: converting a native Unix socket address with no pathname
never fails and yields the fixed placeholder path, and `Listener::accept`
normalizes an unnamed peer address through the same conversion instead of
erroring. -/
theorem claim_C5 (s : UnixSocketAddr) (hs : s.pathname = none) (net : Net)
    (h : UnixListenerH) (st : UnixStreamH) (pa : UnixSocketAddr)
    (hacc : net.unixAccept h = .ok (st, pa)) (hpa : pa.pathname = none) :
    Addr.fromUnixSocketAddr s = .Unix ("unnamed".data)
  ∧ Listener.accept net (.Unix h) = .ok (.Unix st, Addr.fromUnixSocketAddr pa)
  ∧ Addr.fromUnixSocketAddr pa = .Unix ("unnamed".data) := by
  refine ⟨?_, ?_, ?_⟩
  · simp [Addr.fromUnixSocketAddr, hs]
  · simp [Listener.accept, hacc, Except.map]
  · simp [Addr.fromUnixSocketAddr, hpa]

/-- Witness for claim C5: the all-succeeding oracle reports an unnamed
peer, and accept yields the placeholder address. -/
theorem claim_C5_witness :
    (UnixSocketAddr.mk none).pathname = none
  ∧ okNet.unixAccept ⟨1⟩ = .ok (⟨3⟩, ⟨none⟩)
  ∧ Listener.accept okNet (.Unix ⟨1⟩) = .ok (.Unix ⟨3⟩, Addr.fromUnixSocketAddr ⟨none⟩)
  ∧ Addr.fromUnixSocketAddr ⟨none⟩ = .Unix ("unnamed".data) :=
  ⟨rfl, rfl,
   (claim_C5 ⟨none⟩ rfl okNet ⟨1⟩ ⟨3⟩ ⟨none⟩ rfl rfl).2.1,
   (claim_C5 ⟨none⟩ rfl okNet ⟨1⟩ ⟨3⟩ ⟨none⟩ rfl rfl).2.2⟩

/-- Claim C6: `Addr` equality is structural over the variant tag and
payload (derived `PartialEq`/`Eq`), the `Inet` and `Unix` variants are
never equal, and the derived hash encoding agrees on equal values. -/
theorem claim_C6 :
    (∀ x y : SocketAddr, (Addr.Inet x = Addr.Inet y) ↔ x = y)
  ∧ (∀ p q : Str, (Addr.Unix p = Addr.Unix q) ↔ p = q)
  ∧ (∀ x p, Addr.Inet x ≠ Addr.Unix p)
  ∧ (∀ a b : Addr, a = b → Addr.hashStream a = Addr.hashStream b) := by
  refine ⟨?_, ?_, ?_, ?_⟩
  · intro x y
    exact ⟨fun h => by cases h; rfl, fun h => by rw [h]⟩
  · intro p q
    exact ⟨fun h => by cases h; rfl, fun h => by rw [h]⟩
  · intro x p h
    cases h
  · intro a b h
    rw [h]

/-- Witness for claim C6 at concrete addresses. -/
theorem claim_C6_witness :
    ((Addr.Inet (.v4 ⟨(1, 2, 3, 4), 5⟩) = Addr.Inet (.v4 ⟨(1, 2, 3, 4), 5⟩)) ↔
      ((.v4 ⟨(1, 2, 3, 4), 5⟩ : SocketAddr) = .v4 ⟨(1, 2, 3, 4), 5⟩))
  ∧ Addr.Inet (.v4 ⟨(1, 2, 3, 4), 5⟩) ≠ Addr.Unix ("/a".data)
  ∧ Addr.hashStream (Addr.Unix ("/a".data)) = Addr.hashStream (Addr.Unix ("/a".data)) :=
  ⟨claim_C6.1 (.v4 ⟨(1, 2, 3, 4), 5⟩) (.v4 ⟨(1, 2, 3, 4), 5⟩),
   claim_C6.2.2.1 (.v4 ⟨(1, 2, 3, 4), 5⟩) ("/a".data),
   claim_C6.2.2.2 (Addr.Unix ("/a".data)) (Addr.Unix ("/a".data)) rfl⟩

/-- Counterexample to claim C7 as stated: the visitor's expected-shape
text is `a Socket Address`, not `a socket address`. -/
theorem claim_C7_cex : Addr.expectingText ≠ "a socket address".data := by decide

/-- Claim C7 (amended): the serde `Deserialize` impl decodes exactly one
text value through the same parse rule as `FromStr` (failures wrapped as
custom errors), rejects non-text values with a type error, and names the
expected shape as `a Socket Address`. -/
theorem claim_C7 (resolve : Resolver) (s : Str) :
    Addr.deserialize resolve (.str s) =
      (match Addr.fromStr resolve s with
       | .ok a => .ok a
       | .error e => .error (.custom e))
  ∧ Addr.deserialize resolve .notStr = .error (.invalidType Addr.expectingText)
  ∧ Addr.expectingText = "a Socket Address".data :=
  ⟨rfl, rfl, rfl⟩

/-- Claim C9: every constructor preserves the transport variant: binding
an `Inet`/`Unix` address yields an `Inet`/`Unix` listener, accepting on
it yields a stream and peer address of the same variant, and connecting
to it yields a stream of the same variant. -/
theorem claim_C9 (net : Net) :
    (∀ sa l, Listener.bind net (.Inet sa) = .ok l → l.isInet = true)
  ∧ (∀ p l, Listener.bind net (.Unix p) = .ok l → l.isUnix = true)
  ∧ (∀ h s a, Listener.accept net (.Inet h) = .ok (s, a) → s.isInet = true ∧ a.isInet = true)
  ∧ (∀ h s a, Listener.accept net (.Unix h) = .ok (s, a) → s.isUnix = true ∧ a.isUnix = true)
  ∧ (∀ sa s, Stream.connect net (.Inet sa) = .ok s → s.isInet = true)
  ∧ (∀ p s, Stream.connect net (.Unix p) = .ok s → s.isUnix = true) := by
  refine ⟨?_, ?_, ?_, ?_, ?_, ?_⟩
  · intro sa l hb
    cases hh : net.tcpBind sa <;> simp [Listener.bind, hh, Except.map] at hb
    rw [← hb]
    rfl
  · intro p l hb
    cases hh : net.unixBind p <;> simp [Listener.bind, hh, Except.map] at hb
    rw [← hb]
    rfl
  · intro h s a hb
    cases hh : net.tcpAccept h <;> simp [Listener.accept, hh, Except.map] at hb
    exact ⟨by rw [← hb.1]; rfl, by rw [← hb.2]; rfl⟩
  · intro h s a hb
    cases hh : net.unixAccept h <;> simp [Listener.accept, hh, Except.map] at hb
    exact ⟨by rw [← hb.1]; rfl, by rw [← hb.2]; exact fromUnixSocketAddr_isUnix _⟩
  · intro sa s hb
    cases hh : net.tcpConnect sa <;> simp [Stream.connect, hh, Except.map] at hb
    rw [← hb]
    rfl
  · intro p s hb
    cases hh : net.unixConnect p <;> simp [Stream.connect, hh, Except.map] at hb
    rw [← hb]
    rfl

/-- Witness for claim C9 with the all-succeeding oracle. -/
theorem claim_C9_witness :
    Listener.bind okNet (.Inet (.v4 ⟨(127, 0, 0, 1), 80⟩)) = .ok (.Inet ⟨0⟩)
  ∧ (Listener.Inet ⟨0⟩).isInet = true
  ∧ Listener.accept okNet (.Unix ⟨1⟩) = .ok (.Unix ⟨3⟩, Addr.fromUnixSocketAddr ⟨none⟩)
  ∧ (Stream.Unix ⟨3⟩).isUnix = true ∧ (Addr.fromUnixSocketAddr ⟨none⟩).isUnix = true :=
  ⟨rfl, (claim_C9 okNet).1 (.v4 ⟨(127, 0, 0, 1), 80⟩) (.Inet ⟨0⟩) rfl, rfl,
   (claim_C9 okNet).2.2.2.1 ⟨1⟩ (.Unix ⟨3⟩) (Addr.fromUnixSocketAddr ⟨none⟩) rfl⟩

/-- Claim C10: the placeholder for an unnamed local-domain address is the
literal relative path `unnamed`: the conversion yields `Unix "unnamed"`,
it formats as the text `unnamed`, and it coincides with the `Addr` built
from a real path named `unnamed`. -/
theorem claim_C10 :
    Addr.fromUnixSocketAddr ⟨none⟩ = Addr.Unix ("unnamed".data)
  ∧ Addr.display (Addr.fromUnixSocketAddr ⟨none⟩) = "unnamed".data
  ∧ Addr.fromUnixSocketAddr ⟨none⟩ = Addr.fromPath ("unnamed".data) :=
  ⟨rfl, rfl, rfl⟩

/-- A run of characters satisfying `p` followed by text whose head fails
`p` splits cleanly under `takeWhile`. -/
theorem takeWhile_append_all (p : Char → Bool) (xs rest : Str)
    (hxs : ∀ x ∈ xs, p x = true) (hrest : ∀ c, rest.head? = some c → p c = false) :
    (xs ++ rest).takeWhile p = xs := by
  induction xs with
  | nil =>
    cases rest with
    | nil => rfl
    | cons c t => simp [List.takeWhile_cons, hrest c rfl]
  | cons x xs ih =>
    simp only [List.cons_append, List.takeWhile_cons, hxs x (by simp), if_true]
    rw [ih (fun y hy => hxs y (by simp [hy]))]

/-- A run of characters satisfying `p` followed by text whose head fails
`p` splits cleanly under `dropWhile`. -/
theorem dropWhile_append_all (p : Char → Bool) (xs rest : Str)
    (hxs : ∀ x ∈ xs, p x = true) (hrest : ∀ c, rest.head? = some c → p c = false) :
    (xs ++ rest).dropWhile p = rest := by
  induction xs with
  | nil =>
    cases rest with
    | nil => rfl
    | cons c t => simp [List.dropWhile_cons, hrest c rfl]
  | cons x xs ih =>
    simp only [List.cons_append, List.dropWhile_cons, hxs x (by simp), if_true]
    exact ih (fun y hy => hxs y (by simp [hy]))

/-- Parsing inverts printing at the level of single digits (decimal and
hexadecimal radixes). -/
theorem charToDigit_digitChar (radix d : Nat) (hr : radix = 10 ∨ radix = 16) (hd : d < radix) :
    charToDigit radix (Nat.digitChar d) = some d := by
  rcases hr with rfl | rfl <;> interval_cases d <;> decide

/-- A digit character is `0` exactly for the digit zero. -/
theorem digitChar_eq_zero_iff (radix d : Nat) (hr : radix = 10 ∨ radix = 16) (hd : d < radix) :
    Nat.digitChar d = '0' ↔ d = 0 := by
  rcases hr with rfl | rfl <;> interval_cases d <;> decide

/-- The fueled digit-printing loop computes the reversed base-`radix`
digit expansion, for any sufficient fuel. -/
theorem natToCharsCore_eq_digits (radix : Nat) (h1 : 1 < radix) :
    ∀ (fuel n : Nat) (acc : Str), n ≤ fuel →
    natToCharsCore radix fuel n acc = ((Nat.digits radix n).map Nat.digitChar).reverse ++ acc := by
  intro fuel
  induction fuel with
  | zero =>
    intro n acc hn
    interval_cases n
    simp [natToCharsCore]
  | succ fuel ih =>
    intro n acc hn
    by_cases h0 : n = 0
    · subst h0
      simp [natToCharsCore]
    · have hlt : n / radix < n := Nat.div_lt_self (Nat.pos_of_ne_zero h0) h1
      rw [natToCharsCore, if_neg h0, ih (n / radix) _ (by omega)]
      rw [Nat.digits_def' h1 (Nat.pos_of_ne_zero h0)]
      simp [List.reverse_cons, List.append_assoc]

/-- The canonical rendering is the reversed digit expansion (with the
zero special case). -/
theorem natToChars_eq_digits (radix n : Nat) (h1 : 1 < radix) :
    natToChars radix n =
      if n = 0 then ['0'] else ((Nat.digits radix n).map Nat.digitChar).reverse := by
  unfold natToChars
  by_cases h0 : n = 0
  · simp [h0]
  · simp only [h0, if_false]
    rw [natToCharsCore_eq_digits radix h1 n n [] (le_refl n), List.append_nil]

/-- A rendered number is never the empty text. -/
theorem natToChars_ne_nil (radix n : Nat) (h1 : 1 < radix) : natToChars radix n ≠ [] := by
  rw [natToChars_eq_digits radix n h1]
  by_cases h0 : n = 0
  · simp [h0]
  · simp [h0, Nat.digits_ne_nil_iff_ne_zero.mpr h0]

/-- Every character of a rendered number is a digit of its radix. -/
theorem natToChars_all_digits (radix n : Nat) (hr : radix = 10 ∨ radix = 16) :
    ∀ c ∈ natToChars radix n, isRadixDigit radix c = true := by
  have h1 : 1 < radix := by rcases hr with rfl | rfl <;> omega
  rw [natToChars_eq_digits radix n h1]
  by_cases h0 : n = 0
  · simp only [h0, if_true]
    intro c hc
    simp only [List.mem_singleton] at hc
    subst hc
    rcases hr with rfl | rfl <;> decide
  · simp only [h0, if_false]
    intro c hc
    rw [List.mem_reverse] at hc
    obtain ⟨d, hd, rfl⟩ := List.mem_map.mp hc
    have hdlt : d < radix := Nat.digits_lt_base h1 hd
    unfold isRadixDigit
    rw [charToDigit_digitChar radix d hr hdlt]
    rfl

/-- The accumulator loop of `read_number` evaluated on a reversed digit
expansion recovers the positional value. -/
theorem foldl_digits_rev (radix : Nat) (hr : radix = 10 ∨ radix = 16) (L : List Nat)
    (hL : ∀ d ∈ L, d < radix) (acc : Nat) :
    ((L.map Nat.digitChar).reverse).foldl
        (fun a c => a * radix + ((charToDigit radix c).getD 0)) acc
      = acc * radix ^ L.length + Nat.ofDigits radix L := by
  induction L generalizing acc with
  | nil => simp
  | cons d L ih =>
    simp only [List.map_cons, List.reverse_cons, List.foldl_append, List.foldl_cons,
      List.foldl_nil]
    rw [ih (fun x hx => hL x (List.mem_cons_of_mem d hx))]
    rw [charToDigit_digitChar radix d hr (hL d (List.mem_cons_self d L))]
    simp only [Option.getD_some, Nat.ofDigits_cons, List.length_cons]
    ring

/-- Parsing inverts printing at the level of whole numbers. -/
theorem digitsVal_natToChars (radix n : Nat) (hr : radix = 10 ∨ radix = 16) :
    digitsVal radix (natToChars radix n) = n := by
  have h1 : 1 < radix := by rcases hr with rfl | rfl <;> omega
  rw [natToChars_eq_digits radix n h1]
  by_cases h0 : n = 0
  · subst h0
    rcases hr with rfl | rfl <;> decide
  · simp only [h0, if_false]
    unfold digitsVal
    rw [foldl_digits_rev radix hr _ (fun d hd => Nat.digits_lt_base h1 hd) 0]
    have hof := Nat.ofDigits_digits radix n
    omega

/-- A number below `radix ^ m` renders in at most `m` characters. -/
theorem natToChars_length_le (radix n m : Nat) (h1 : 1 < radix) (hm : 1 ≤ m)
    (h : n < radix ^ m) : (natToChars radix n).length ≤ m := by
  rw [natToChars_eq_digits radix n h1]
  by_cases h0 : n = 0
  · simp only [h0, if_true, List.length_singleton]
    omega
  · simp only [h0, if_false, List.length_reverse, List.length_map]
    rw [Nat.digits_len radix n h1 h0]
    have := (Nat.lt_pow_iff_log_lt h1 h0).mp h
    omega

/-- A rendered number starting with the character `0` is the single
character `0` (no leading zeros). -/
theorem natToChars_head_zero (radix n : Nat) (hr : radix = 10 ∨ radix = 16)
    (h : (natToChars radix n).head? = some '0') : (natToChars radix n).length = 1 := by
  have h1 : 1 < radix := by rcases hr with rfl | rfl <;> omega
  by_cases h0 : n = 0
  · rw [natToChars_eq_digits radix n h1]
    simp [h0]
  · exfalso
    rw [natToChars_eq_digits radix n h1] at h
    simp only [h0, if_false] at h
    rw [List.head?_reverse, List.getLast?_map] at h
    have hne : Nat.digits radix n ≠ [] := Nat.digits_ne_nil_iff_ne_zero.mpr h0
    rw [List.getLast?_eq_getLast _ hne] at h
    simp only [Option.map_some'] at h
    have hzero : Nat.digitChar ((Nat.digits radix n).getLast hne) = '0' :=
      Option.some.inj h
    have hlt : (Nat.digits radix n).getLast hne < radix :=
      Nat.digits_lt_base h1 (List.getLast_mem hne)
    exact Nat.getLast_digit_ne_zero radix h0
      ((digitChar_eq_zero_iff radix _ hr hlt).mp hzero)

/-- Reader `read_number` fails on text that does not start with a digit of its
radix (in particular on empty text). -/
theorem readNumber_none (radix bound : Nat) (maxD : Option Nat) (z : Bool) (cs : Str)
    (h : ∀ c, cs.head? = some c → isRadixDigit radix c = false) :
    readNumber radix maxD z bound cs = none := by
  have ht : cs.takeWhile (isRadixDigit radix) = [] := by
    cases cs with
    | nil => rfl
    | cons c t => simp [List.takeWhile_cons, h c rfl]
  unfold readNumber
  simp [ht]

/-- Soundness of `read_number`: a successful read returns a value below
the type bound and splits the input into a nonempty digit run and the
returned remainder. -/
theorem readNumber_some (radix bound v : Nat) (maxD : Option Nat) (z : Bool) (cs rest : Str)
    (h : readNumber radix maxD z bound cs = some (v, rest)) :
    v < bound ∧ ∃ ds, cs = ds ++ rest ∧ ds ≠ [] ∧ ∀ c ∈ ds, isRadixDigit radix c = true := by
  unfold readNumber at h
  split_ifs at h with hlen hmax hzero hbound
  have hv : v = digitsVal radix (cs.takeWhile (isRadixDigit radix)) ∧
      rest = cs.dropWhile (isRadixDigit radix) := by
    have heq := Option.some.inj h
    exact ⟨(congrArg Prod.fst heq).symm, (congrArg Prod.snd heq).symm⟩
  refine ⟨hv.1 ▸ hbound, cs.takeWhile (isRadixDigit radix), ?_, ?_, ?_⟩
  · rw [hv.2, List.takeWhile_append_dropWhile]
  · intro hnil
    rw [hnil] at hlen
    exact hlen rfl
  · intro c hc
    exact List.mem_takeWhile_imp hc

/-- Printing then reading a number round-trips: `read_number` on a
canonical rendering followed by non-digit text returns exactly the
number and the trailing text. -/
theorem readNumber_natToChars (radix n bound : Nat) (maxD : Option Nat) (allowZero : Bool)
    (rest : Str) (hr : radix = 10 ∨ radix = 16) (hb : n < bound)
    (hmax : ∀ m, maxD = some m → 1 ≤ m ∧ n < radix ^ m)
    (hrest : ∀ c, rest.head? = some c → isRadixDigit radix c = false) :
    readNumber radix maxD allowZero bound (natToChars radix n ++ rest) = some (n, rest) := by
  have h1 : 1 < radix := by rcases hr with rfl | rfl <;> omega
  have hall := natToChars_all_digits radix n hr
  have htake := takeWhile_append_all (isRadixDigit radix) _ rest hall hrest
  have hdrop := dropWhile_append_all (isRadixDigit radix) _ rest hall hrest
  have hlen : ¬ (natToChars radix n).length = 0 := by
    simp [List.length_eq_zero, natToChars_ne_nil radix n h1]
  have hzerof : (!allowZero && ((natToChars radix n).head? = some '0' : Bool) &&
      decide (1 < (natToChars radix n).length)) = false := by
    by_cases hz : (natToChars radix n).head? = some '0'
    · have := natToChars_head_zero radix n hr hz
      simp [this]
    · simp [hz]
  unfold readNumber
  rw [htake, hdrop]
  simp only [hlen, if_false]
  cases maxD with
  | none =>
    rw [if_neg (by simp)]
    rw [if_neg (by rw [hzerof]; exact Bool.false_ne_true)]
    rw [digitsVal_natToChars radix n hr, if_pos hb]
  | some m =>
    have hm := hmax m rfl
    have hmlen := natToChars_length_le radix n m h1 hm.1 hm.2
    rw [if_neg (by simp; omega)]
    rw [if_neg (by rw [hzerof]; exact Bool.false_ne_true)]
    rw [digitsVal_natToChars radix n hr, if_pos hb]

/-- Reader `read_ipv4_addr` fails on text not starting with a decimal digit. -/
theorem readIpv4_none (cs : Str)
    (h : ∀ c, cs.head? = some c → isRadixDigit 10 c = false) : readIpv4 cs = none := by
  unfold readIpv4 readOctet
  rw [readNumber_none 10 256 (some 3) false cs h]

/-- Reader `read_ipv4_addr` fails on text containing no dot: the separator after
the first octet can never be consumed. -/
theorem readIpv4_no_dot (cs : Str) (h : '.' ∉ cs) : readIpv4 cs = none := by
  unfold readIpv4
  cases ho : readOctet cs with
  | none => rfl
  | some p =>
    obtain ⟨v, r⟩ := p
    obtain ⟨hvb, ds, hcs, hne, hds⟩ := readNumber_some 10 256 v (some 3) false cs r ho
    have hno : readGivenChar '.' r = none := by
      cases r with
      | nil => rfl
      | cons c t =>
        have hcne : c ≠ '.' := by
          intro hcd
          apply h
          rw [hcs, hcd]
          exact List.mem_append_right ds (List.mem_cons_self _ _)
        simp [readGivenChar, hcne]
    simp [hno]

/-- Printing then reading a single octet round-trips. -/
theorem readOctet_roundtrip (a : Nat) (ha : a < 256) (rest : Str)
    (hrest : ∀ ch, rest.head? = some ch → isRadixDigit 10 ch = false) :
    readOctet (natToChars 10 a ++ rest) = some (a, rest) := by
  unfold readOctet
  apply readNumber_natToChars 10 a 256 (some 3) false rest (Or.inl rfl) ha ?_ hrest
  intro m hm
  cases hm
  exact ⟨by norm_num, lt_of_lt_of_le ha (by norm_num)⟩

/-- Text starting with a dot does not start with a decimal digit. -/
theorem dot_head_not_digit (t : Str) :
    ∀ ch, (('.' : Char) :: t).head? = some ch → isRadixDigit 10 ch = false := by
  intro ch hch
  injection hch with hch
  subst hch
  decide

/-- Printing then reading an IPv4 address round-trips. -/
theorem readIpv4_roundtrip (a b c d : Nat) (ha : a < 256) (hb : b < 256) (hc : c < 256)
    (hd : d < 256) (rest : Str)
    (hrest : ∀ ch, rest.head? = some ch → isRadixDigit 10 ch = false) :
    readIpv4 (ipv4ToChars (a, b, c, d) ++ rest) = some ((a, b, c, d), rest) := by
  have h4 := readOctet_roundtrip d hd rest hrest
  have h3 := readOctet_roundtrip c hc ('.' :: (natToChars 10 d ++ rest)) (dot_head_not_digit _)
  have h2 := readOctet_roundtrip b hb ('.' :: (natToChars 10 c ++ '.' :: (natToChars 10 d ++ rest)))
    (dot_head_not_digit _)
  have h1 := readOctet_roundtrip a ha
    ('.' :: (natToChars 10 b ++ '.' :: (natToChars 10 c ++ '.' :: (natToChars 10 d ++ rest))))
    (dot_head_not_digit _)
  have htext : ipv4ToChars (a, b, c, d) ++ rest =
      natToChars 10 a ++
        ('.' :: (natToChars 10 b ++ '.' :: (natToChars 10 c ++ '.' :: (natToChars 10 d ++ rest)))) := by
    simp [ipv4ToChars, List.append_assoc]
  unfold readIpv4
  rw [htext]
  simp only [h1, h2, h3, h4, readGivenChar, if_pos rfl, if_true]

/-- Text headed by a non-digit character has a non-digit head. -/
theorem cons_head_not_digit (radix : Nat) (c : Char) (hc : isRadixDigit radix c = false)
    (t : Str) : ∀ ch, ((c :: t : Str)).head? = some ch → isRadixDigit radix ch = false := by
  intro ch hch
  injection hch with hch
  exact hch ▸ hc

/-- The group-list embedding with no groups is the trailing text. -/
theorem sepJoin_nil (b : Bool) (rest : Str) : sepJoin b [] rest = rest := by
  cases b <;> rfl

/-- At stopping text, the embedded-IPv4 attempt of the group loop fails. -/
theorem readSep_stop_v4 (needSep : Bool) (rest : Str) (hst : StopText rest) :
    readSep ':' needSep readIpv4 rest = none := by
  have hcons : ∀ (c : Char) (u : Str), isRadixDigit 10 c = false → readIpv4 (c :: u) = none :=
    fun c u hc => readIpv4_none _ (cons_head_not_digit 10 c hc u)
  rcases hst with rfl | ⟨t, rfl⟩ | ⟨t, rfl⟩ | ⟨t, rfl⟩
  · cases needSep
    · rfl
    · rfl
  · cases needSep
    · exact hcons ':' (':' :: t) (by decide)
    · simp only [readSep, readGivenChar, if_true, if_pos rfl]
      exact hcons ':' t (by decide)
  · cases needSep
    · exact hcons ']' t (by decide)
    · simp [readSep, readGivenChar]
  · cases needSep
    · exact hcons '%' t (by decide)
    · simp [readSep, readGivenChar]

/-- At stopping text, the hex-group attempt of the group loop fails. -/
theorem readSep_stop_group (needSep : Bool) (rest : Str) (hst : StopText rest) :
    readSep ':' needSep readGroup rest = none := by
  have hcons : ∀ (c : Char) (u : Str), isRadixDigit 16 c = false → readGroup (c :: u) = none :=
    fun c u hc => readNumber_none 16 65536 (some 4) true _ (cons_head_not_digit 16 c hc u)
  rcases hst with rfl | ⟨t, rfl⟩ | ⟨t, rfl⟩ | ⟨t, rfl⟩
  · cases needSep
    · rfl
    · rfl
  · cases needSep
    · exact hcons ':' (':' :: t) (by decide)
    · simp only [readSep, readGivenChar, if_true, if_pos rfl]
      exact hcons ':' t (by decide)
  · cases needSep
    · exact hcons ']' t (by decide)
    · simp [readSep, readGivenChar]
  · cases needSep
    · exact hcons '%' t (by decide)
    · simp [readSep, readGivenChar]

/-- Reader `read_groups` at a `::` marker stops immediately without consuming. -/
theorem readGroups_colons (n : Nat) (needSep : Bool) (t : Str) :
    readGroups n needSep (':' :: ':' :: t) = ([], false, ':' :: ':' :: t) := by
  cases n with
  | zero => rfl
  | succ m =>
    have hst : StopText (':' :: ':' :: t) := Or.inr (Or.inl ⟨t, rfl⟩)
    have hv4 := readSep_stop_v4 needSep _ hst
    have hgr := readSep_stop_group needSep _ hst
    rw [readGroups]
    by_cases hm : 1 ≤ m <;> simp [hm, hv4, hgr]

/-- Splitting of the embedded text of a nonempty group list. -/
theorem sepJoin_cons (needSep : Bool) (g : Nat) (gs : List Nat) (rest : Str) :
    sepJoin needSep (g :: gs) rest =
      (if needSep then [':'] else []) ++ (natToChars 16 g ++ sepJoin true gs rest) := by
  cases needSep <;> cases gs <;> simp [sepJoin, joinColon, List.append_assoc]

/-- The rendering of a group run before dot-free text contains no dot. -/
theorem dot_not_in_sepJoin (gs : List Nat) (rest : Str) (hdot : ('.' : Char) ∉ rest) :
    ∀ b, ('.' : Char) ∉ sepJoin b gs rest := by
  induction gs with
  | nil =>
    intro b
    rw [sepJoin_nil]
    exact hdot
  | cons g gs ih =>
    intro b
    rw [sepJoin_cons]
    intro hmem
    rcases List.mem_append.mp hmem with h | h
    · cases b <;> simp at h
    · rcases List.mem_append.mp h with h | h
      · exact absurd (natToChars_all_digits 16 g (Or.inr rfl) '.' h) (by decide)
      · exact ih true h

/-- The embedded text of a group run at a positive index starts with a
separator or with the stopping text. -/
theorem sepJoin_true_head (gs : List Nat) (rest : Str)
    (hhead : ∀ c, rest.head? = some c → isRadixDigit 16 c = false) :
    ∀ c, (sepJoin true gs rest).head? = some c → isRadixDigit 16 c = false := by
  cases gs with
  | nil => exact hhead
  | cons g gs => exact cons_head_not_digit 16 ':' (by decide) _

/-- Central group-run lemma: the group loop on the rendering of a group
list embedded before stopping text reads back exactly those groups and
leaves the stopping text. -/
theorem readGroups_sepJoin (G : List Nat) : ∀ (n : Nat) (needSep : Bool) (rest : Str),
    (∀ g ∈ G, g < 65536) → G.length ≤ n → (G.length < n → StopText rest) →
    (∀ c, rest.head? = some c → isRadixDigit 16 c = false) → (('.' : Char) ∉ rest) →
    readGroups n needSep (sepJoin needSep G rest) = (G, false, rest) := by
  induction G with
  | nil =>
    intro n needSep rest hWF hlen hstop hhead hdot
    rw [sepJoin_nil]
    cases n with
    | zero => rfl
    | succ m =>
      have hst := hstop (by simp)
      have hv4 := readSep_stop_v4 needSep _ hst
      have hgr := readSep_stop_group needSep _ hst
      rw [readGroups]
      by_cases hm : 1 ≤ m <;> simp [hm, hv4, hgr]
  | cons g gs ih =>
    intro n needSep rest hWF hlen hstop hhead hdot
    obtain ⟨m, rfl⟩ : ∃ m, n = m + 1 :=
      ⟨n - 1, by simp at hlen; omega⟩
    have hdotJ : ('.' : Char) ∉ natToChars 16 g ++ sepJoin true gs rest := by
      intro hmem
      rcases List.mem_append.mp hmem with h | h
      · exact absurd (natToChars_all_digits 16 g (Or.inr rfl) '.' h) (by decide)
      · exact dot_not_in_sepJoin gs rest hdot true h
    have hv4 : readSep ':' needSep readIpv4 (sepJoin needSep (g :: gs) rest) = none := by
      rw [sepJoin_cons]
      cases needSep with
      | false =>
        simp only [Bool.false_eq_true, if_false, List.nil_append, readSep]
        exact readIpv4_no_dot _ hdotJ
      | true =>
        simp only [if_true, List.singleton_append, readSep, readGivenChar, if_pos rfl]
        exact readIpv4_no_dot _ hdotJ
    have hgr : readSep ':' needSep readGroup (sepJoin needSep (g :: gs) rest) =
        some (g, sepJoin true gs rest) := by
      have hnum : readGroup (natToChars 16 g ++ sepJoin true gs rest) =
          some (g, sepJoin true gs rest) := by
        unfold readGroup
        apply readNumber_natToChars 16 g 65536 (some 4) true _ (Or.inr rfl)
          (hWF g (List.mem_cons_self g gs)) ?_ (sepJoin_true_head gs rest hhead)
        intro k hk
        cases hk
        exact ⟨by norm_num, lt_of_lt_of_le (hWF g (List.mem_cons_self g gs)) (by norm_num)⟩
      rw [sepJoin_cons]
      cases needSep with
      | false =>
        simp only [Bool.false_eq_true, if_false, List.nil_append, readSep]
        exact hnum
      | true =>
        simp only [if_true, List.singleton_append, readSep, readGivenChar, if_pos rfl]
        exact hnum
    have hrec : readGroups m true (sepJoin true gs rest) = (gs, false, rest) := by
      apply ih m true rest (fun x hx => hWF x (List.mem_cons_of_mem g hx))
        (by simp at hlen; omega) (fun hlt => hstop (by simp; omega)) hhead hdot
    rw [readGroups]
    by_cases hm : 1 ≤ m
    · simp only [if_pos hm, hv4, hgr, hrec]
    · simp only [if_neg hm, hgr, hrec]


/-- The group-list embedding at index zero is the joined groups before
the trailing text. -/
theorem sepJoin_false (G : List Nat) (rest : Str) :
    sepJoin false G rest = joinColon G ++ rest := by
  cases G <;> rfl

/-- Invariant propagation of the zero-run search loop: when the running
span and the best span are zero spans of the list, so is the result. -/
theorem zeroRunAux_spec (segs : List Nat) :
    ∀ (L : List Nat) (i : Nat) (cur lng : Span),
    segs.drop i = L →
    (cur.len = 0 ∨ (cur.start + cur.len = i ∧ ZeroSpan segs cur)) →
    ZeroSpan segs lng →
    ZeroSpan segs (zeroRunAux L i cur lng) := by
  intro L
  induction L with
  | nil =>
    intro i cur lng hdrop hcur hlng
    simpa [zeroRunAux] using hlng
  | cons x L ih =>
    intro i cur lng hdrop hcur hlng
    have hx : segs.get? i = some x := by
      have h0 : (segs.drop i).get? 0 = some x := by
        rw [hdrop]
        rfl
      rwa [List.get?_drop, Nat.add_zero] at h0
    have hi : i < segs.length := by
      by_contra hge
      rw [List.drop_eq_nil_of_le (by omega)] at hdrop
      exact List.noConfusion hdrop
    have hdrop1 : segs.drop (i + 1) = L := by
      have h1 : (segs.drop i).drop 1 = segs.drop (i + 1) := by
        rw [List.drop_drop]
      rw [← h1, hdrop]
      rfl
    rw [zeroRunAux]
    by_cases hx0 : x = 0
    · rw [if_pos hx0]
      by_cases hc : cur.len = 0
      · rw [if_pos hc]
        have hz2 : ZeroSpan segs ⟨i, cur.len + 1⟩ := by
          refine ⟨by show i + (cur.len + 1) ≤ segs.length; omega, ?_⟩
          intro j hj
          have hj1 : j < cur.len + 1 := hj
          have hj0 : j = 0 := by omega
          subst hj0
          show segs.get? (i + 0) = some 0
          rw [Nat.add_zero]
          rw [hx0] at hx
          exact hx
        apply ih (i + 1) _ _ hdrop1 (Or.inr ⟨by show i + (cur.len + 1) = i + 1; omega, hz2⟩)
        by_cases hl : lng.len < cur.len + 1
        · rw [if_pos hl]
          exact hz2
        · rw [if_neg hl]
          exact hlng
      · rw [if_neg hc]
        rcases hcur with hc0 | ⟨hci, hcz⟩
        · exact absurd hc0 hc
        · have hz2 : ZeroSpan segs ⟨cur.start, cur.len + 1⟩ := by
            refine ⟨by show cur.start + (cur.len + 1) ≤ segs.length; omega, ?_⟩
            intro j hj
            have hj1 : j < cur.len + 1 := hj
            by_cases hjl : j < cur.len
            · exact hcz.2 j hjl
            · have hj2 : j = cur.len := by omega
              subst hj2
              show segs.get? (cur.start + cur.len) = some 0
              rw [hci]
              rw [hx0] at hx
              exact hx
          apply ih (i + 1) _ _ hdrop1
            (Or.inr ⟨by show cur.start + (cur.len + 1) = i + 1; omega, hz2⟩)
          by_cases hl : lng.len < cur.len + 1
          · rw [if_pos hl]
            exact hz2
          · rw [if_neg hl]
            exact hlng
    · rw [if_neg hx0]
      exact ih (i + 1) ⟨0, 0⟩ lng hdrop1 (Or.inl rfl) hlng

/-- The zero run found by the display code is a genuine in-bounds run of
zero groups. -/
theorem findZeroRun_spec (segs : List Nat) : ZeroSpan segs (findZeroRun segs) := by
  unfold findZeroRun
  apply zeroRunAux_spec segs segs 0 ⟨0, 0⟩ ⟨0, 0⟩ rfl (Or.inl rfl)
  exact ⟨by simp, fun j hj => absurd (show j < 0 from hj) (by omega)⟩

/-- A list splits around any of its zero spans into a prefix, a block of
zeros, and a suffix. -/
theorem zeroSpan_decomp (segs : List Nat) (z : Span) (hz : ZeroSpan segs z) :
    segs = segs.take z.start ++ (List.replicate z.len 0 ++ segs.drop (z.start + z.len)) := by
  have hmid : (segs.drop z.start).take z.len = List.replicate z.len 0 := by
    apply List.ext_get?
    intro n
    by_cases hn : n < z.len
    · rw [List.get?_take hn, List.get?_drop]
      rw [hz.2 n hn]
      symm
      simp [List.get?_eq_getElem?, List.getElem?_replicate, hn]
    · have h1 : ((segs.drop z.start).take z.len).get? n = none := by
        apply List.get?_eq_none.mpr
        rw [List.length_take]
        omega
      have h2 : (List.replicate z.len (0 : Nat)).get? n = none := by
        apply List.get?_eq_none.mpr
        rw [List.length_replicate]
        omega
      rw [h1, h2]
  have h2 : segs.drop z.start =
      (segs.drop z.start).take z.len ++ segs.drop (z.start + z.len) := by
    have h3 := (List.take_append_drop z.len (segs.drop z.start)).symm
    rwa [List.drop_drop] at h3
  conv_lhs => rw [← List.take_append_drop z.start segs, h2]
  rw [hmid]

/-- A list of length eight is literally an eight-element list. -/
theorem list_len_eight (l : List Nat) (h : l.length = 8) :
    ∃ g0 g1 g2 g3 g4 g5 g6 g7, l = [g0, g1, g2, g3, g4, g5, g6, g7] := by
  cases l with
  | nil => exact absurd h (by simp)
  | cons b0 l =>
  cases l with
  | nil => exact absurd h (by simp)
  | cons b1 l =>
  cases l with
  | nil => exact absurd h (by simp)
  | cons b2 l =>
  cases l with
  | nil => exact absurd h (by simp)
  | cons b3 l =>
  cases l with
  | nil => exact absurd h (by simp)
  | cons b4 l =>
  cases l with
  | nil => exact absurd h (by simp)
  | cons b5 l =>
  cases l with
  | nil => exact absurd h (by simp)
  | cons b6 l =>
  cases l with
  | nil => exact absurd h (by simp)
  | cons b7 l =>
  cases l with
  | nil => exact ⟨b0, b1, b2, b3, b4, b5, b6, b7, rfl⟩
  | cons b8 l => exact absurd h (by simp)

/-- The four hex characters of the mapped prefix group. -/
theorem natToChars_ffff : natToChars 16 65535 = ['f', 'f', 'f', 'f'] := by decide

/-- Group-loop computation for the tail of the IPv4-mapped display form:
the `ffff` group, then the embedded IPv4 address. -/
theorem readGroups_mapped_tail (s6 s7 : Nat) (h6 : s6 < 65536) (h7 : s7 < 65536) (rest : Str)
    (hrest10 : ∀ c, rest.head? = some c → isRadixDigit 10 c = false) :
    readGroups 7 false
      (natToChars 16 65535 ++ ':' :: (ipv4ToChars (s6 / 256, s6 % 256, s7 / 256, s7 % 256) ++ rest))
      = ([65535, s6, s7], true, rest) := by
  have hip := readIpv4_roundtrip (s6 / 256) (s6 % 256) (s7 / 256) (s7 % 256)
    (by omega) (by omega) (by omega) (by omega) rest hrest10
  have hv4a : readIpv4
      (natToChars 16 65535 ++ ':' :: (ipv4ToChars (s6 / 256, s6 % 256, s7 / 256, s7 % 256) ++ rest))
      = none := by
    rw [natToChars_ffff]
    exact readIpv4_none _ (cons_head_not_digit 10 'f' (by decide) _)
  have hgrp : readGroup
      (natToChars 16 65535 ++ ':' :: (ipv4ToChars (s6 / 256, s6 % 256, s7 / 256, s7 % 256) ++ rest))
      = some (65535, ':' :: (ipv4ToChars (s6 / 256, s6 % 256, s7 / 256, s7 % 256) ++ rest)) := by
    unfold readGroup
    apply readNumber_natToChars 16 65535 65536 (some 4) true _ (Or.inr rfl) (by norm_num) ?_
      (cons_head_not_digit 16 ':' (by decide) _)
    intro k hk
    cases hk
    exact ⟨by norm_num, by norm_num⟩
  have hrec : readGroups 6 true
      (':' :: (ipv4ToChars (s6 / 256, s6 % 256, s7 / 256, s7 % 256) ++ rest))
      = ([s6, s7], true, rest) := by
    show readGroups (5 + 1) true _ = _
    rw [readGroups]
    rw [if_pos (by norm_num)]
    have hsep : readSep ':' true readIpv4
        (':' :: (ipv4ToChars (s6 / 256, s6 % 256, s7 / 256, s7 % 256) ++ rest))
        = some ((s6 / 256, s6 % 256, s7 / 256, s7 % 256), rest) := by
      simp only [readSep, readGivenChar, if_true, if_pos rfl]
      exact hip
    simp only [hsep]
    have e6 : s6 / 256 * 256 + s6 % 256 = s6 := by omega
    have e7 : s7 / 256 * 256 + s7 % 256 = s7 := by omega
    rw [e6, e7]
  show readGroups (6 + 1) false _ = _
  rw [readGroups]
  rw [if_pos (by norm_num)]
  have hsepv4 : readSep ':' false readIpv4
      (natToChars 16 65535 ++ ':' :: (ipv4ToChars (s6 / 256, s6 % 256, s7 / 256, s7 % 256) ++ rest))
      = none := hv4a
  have hsepg : readSep ':' false readGroup
      (natToChars 16 65535 ++ ':' :: (ipv4ToChars (s6 / 256, s6 % 256, s7 / 256, s7 % 256) ++ rest))
      = some (65535, ':' :: (ipv4ToChars (s6 / 256, s6 % 256, s7 / 256, s7 % 256) ++ rest)) := hgrp
  simp only [hsepv4, hsepg, hrec]


/-- Reading the expected character from text that starts with it. -/
theorem readGivenChar_self (t : Char) (u : Str) : readGivenChar t (t :: u) = some u := by
  simp [readGivenChar]

/-- The IPv4-mapped test, as propositions. -/
theorem isIpv4Mapped_iff (segs : List Nat) :
    isIpv4Mapped segs = true ↔ segs.take 6 = [0, 0, 0, 0, 0, 65535] ∧ segs.length = 8 := by
  unfold isIpv4Mapped
  simp

/-- Printing then reading an IPv4-mapped IPv6 address round-trips. -/
theorem readIpv6_mapped (s6 s7 : Nat) (h6 : s6 < 65536) (h7 : s7 < 65536) (rest : Str)
    (hhead10 : ∀ c, rest.head? = some c → isRadixDigit 10 c = false) :
    readIpv6 (ipv6ToChars [0, 0, 0, 0, 0, 65535, s6, s7] ++ rest)
      = some ([0, 0, 0, 0, 0, 65535, s6, s7], rest) := by
  have hmap : isIpv4Mapped [0, 0, 0, 0, 0, 65535, s6, s7] = true := rfl
  have htext : ipv6ToChars [0, 0, 0, 0, 0, 65535, s6, s7] ++ rest
      = ':' :: ':' :: (natToChars 16 65535 ++
          ':' :: (ipv4ToChars (s6 / 256, s6 % 256, s7 / 256, s7 % 256) ++ rest)) := by
    unfold ipv6ToChars
    rw [if_pos hmap, natToChars_ffff]
    rfl
  rw [htext]
  unfold readIpv6
  rw [readGroups_colons]
  simp only [List.length_nil]
  rw [if_neg (by norm_num), if_neg Bool.false_ne_true]
  simp only [readGivenChar_self]
  rw [show (8 : Nat) - (0 + 1) = 7 from rfl]
  rw [readGroups_mapped_tail s6 s7 h6 h7 rest hhead10]
  rfl

/-- Printing then reading a non-mapped IPv6 address round-trips (zero-run
compressed form and full eight-group form). -/
theorem readIpv6_nonmapped (segs : List Nat) (h8 : segs.length = 8)
    (hWF : ∀ g ∈ segs, g < 65536) (rest : Str)
    (hstopT : StopText rest)
    (hhead : ∀ c, rest.head? = some c → isRadixDigit 16 c = false)
    (hdot : ('.' : Char) ∉ rest)
    (hmap : ¬ isIpv4Mapped segs = true) :
    readIpv6 (ipv6ToChars segs ++ rest) = some (segs, rest) := by
  have hz := findZeroRun_spec segs
  have hztext : ipv6ToChars segs =
      (if 1 < (findZeroRun segs).len then
        joinColon (segs.take (findZeroRun segs).start) ++
          (':' :: ':' :: joinColon (segs.drop ((findZeroRun segs).start + (findZeroRun segs).len)))
      else joinColon segs) := by
    unfold ipv6ToChars
    rw [if_neg hmap]
  rw [hztext]
  by_cases hlen2 : 1 < (findZeroRun segs).len
  · rw [if_pos hlen2]
    have hseg8 : (findZeroRun segs).start + (findZeroRun segs).len ≤ 8 := by
      rw [← h8]
      exact hz.1
    have hAlen : (segs.take (findZeroRun segs).start).length = (findZeroRun segs).start := by
      rw [List.length_take, h8]
      omega
    have hBlen : (segs.drop ((findZeroRun segs).start + (findZeroRun segs).len)).length
        = 8 - ((findZeroRun segs).start + (findZeroRun segs).len) := by
      rw [List.length_drop, h8]
    have hAWF : ∀ g ∈ segs.take (findZeroRun segs).start, g < 65536 :=
      fun g hg => hWF g ((List.take_sublist _ _).subset hg)
    have hBWF : ∀ g ∈ segs.drop ((findZeroRun segs).start + (findZeroRun segs).len), g < 65536 :=
      fun g hg => hWF g ((List.drop_sublist _ _).subset hg)
    have hdotB : ('.' : Char) ∉
        joinColon (segs.drop ((findZeroRun segs).start + (findZeroRun segs).len)) ++ rest := by
      rw [← sepJoin_false]
      exact dot_not_in_sepJoin _ rest hdot false
    have htext : (joinColon (segs.take (findZeroRun segs).start) ++
          (':' :: ':' :: joinColon (segs.drop ((findZeroRun segs).start + (findZeroRun segs).len)))) ++ rest
        = sepJoin false (segs.take (findZeroRun segs).start)
            (':' :: ':' :: (joinColon (segs.drop ((findZeroRun segs).start + (findZeroRun segs).len)) ++ rest)) := by
      rw [sepJoin_false]
      simp [List.append_assoc]
    rw [htext]
    have hheadcall := readGroups_sepJoin (segs.take (findZeroRun segs).start) 8 false
      (':' :: ':' :: (joinColon (segs.drop ((findZeroRun segs).start + (findZeroRun segs).len)) ++ rest))
      hAWF (by rw [hAlen]; omega)
      (fun _ => Or.inr (Or.inl ⟨_, rfl⟩))
      (cons_head_not_digit 16 ':' (by decide) _)
      (by
        intro hm
        rcases List.mem_cons.mp hm with hb | hm2
        · exact absurd hb (by decide)
        rcases List.mem_cons.mp hm2 with hb | hm3
        · exact absurd hb (by decide)
        exact hdotB hm3)
    unfold readIpv6
    rw [hheadcall]
    dsimp only
    rw [hAlen]
    rw [if_neg (show ¬ (findZeroRun segs).start = 8 by omega)]
    rw [if_neg Bool.false_ne_true]
    simp only [readGivenChar_self]
    have htail : readGroups (8 - ((findZeroRun segs).start + 1)) false
        (joinColon (segs.drop ((findZeroRun segs).start + (findZeroRun segs).len)) ++ rest)
        = (segs.drop ((findZeroRun segs).start + (findZeroRun segs).len), false, rest) := by
      rw [← sepJoin_false]
      apply readGroups_sepJoin _ _ false rest hBWF (by rw [hBlen]; omega)
        (fun _ => hstopT) hhead hdot
    rw [htail]
    dsimp only
    rw [hBlen]
    rw [show 8 - (findZeroRun segs).start -
        (8 - ((findZeroRun segs).start + (findZeroRun segs).len)) = (findZeroRun segs).len by omega]
    have hdecomp := zeroSpan_decomp segs (findZeroRun segs) hz
    rw [List.append_assoc, ← hdecomp]
  · rw [if_neg hlen2]
    rw [show joinColon segs ++ rest = sepJoin false segs rest from (sepJoin_false segs rest).symm]
    have hcall := readGroups_sepJoin segs 8 false rest hWF (by omega)
      (fun hlt => absurd hlt (by omega)) hhead hdot
    unfold readIpv6
    rw [hcall]
    dsimp only
    rw [if_pos h8]

/-- Printing then reading an IPv6 address round-trips, for any trailing
text that is empty or starts with a bracket or scope marker. -/
theorem readIpv6_roundtrip (segs : List Nat) (h8 : segs.length = 8)
    (hWF : ∀ g ∈ segs, g < 65536) (rest : Str)
    (hstop : rest = [] ∨ (∃ t, rest = ']' :: t) ∨ (∃ t, rest = '%' :: t))
    (hdot : ('.' : Char) ∉ rest) :
    readIpv6 (ipv6ToChars segs ++ rest) = some (segs, rest) := by
  have hhead16 : ∀ c, rest.head? = some c → isRadixDigit 16 c = false := by
    rcases hstop with rfl | ⟨t, rfl⟩ | ⟨t, rfl⟩
    · intro c hc
      exact Option.noConfusion hc
    · exact cons_head_not_digit 16 ']' (by decide) t
    · exact cons_head_not_digit 16 '%' (by decide) t
  have hhead10 : ∀ c, rest.head? = some c → isRadixDigit 10 c = false := by
    rcases hstop with rfl | ⟨t, rfl⟩ | ⟨t, rfl⟩
    · intro c hc
      exact Option.noConfusion hc
    · exact cons_head_not_digit 10 ']' (by decide) t
    · exact cons_head_not_digit 10 '%' (by decide) t
  have hstopT : StopText rest := by
    rcases hstop with rfl | ⟨t, rfl⟩ | ⟨t, rfl⟩
    · exact Or.inl rfl
    · exact Or.inr (Or.inr (Or.inl ⟨t, rfl⟩))
    · exact Or.inr (Or.inr (Or.inr ⟨t, rfl⟩))
  by_cases hmap : isIpv4Mapped segs = true
  · obtain ⟨htake, _⟩ := (isIpv4Mapped_iff segs).mp hmap
    obtain ⟨s0, s1, s2, s3, s4, s5, s6, s7, rfl⟩ := list_len_eight segs h8
    have he : s0 = 0 ∧ s1 = 0 ∧ s2 = 0 ∧ s3 = 0 ∧ s4 = 0 ∧ s5 = 65535 := by
      simpa using htake
    obtain ⟨rfl, rfl, rfl, rfl, rfl, rfl⟩ := he
    exact readIpv6_mapped s6 s7 (hWF s6 (by simp)) (hWF s7 (by simp)) rest hhead10
  · exact readIpv6_nonmapped segs h8 hWF rest hstopT hhead16 hdot hmap


/-- Octets produced by `read_ipv4_addr` are in byte range. -/
theorem readIpv4_bounds (cs : Str) (a b c d : Nat) (rest : Str)
    (h : readIpv4 cs = some ((a, b, c, d), rest)) :
    a < 256 ∧ b < 256 ∧ c < 256 ∧ d < 256 := by
  unfold readIpv4 at h
  cases h1 : readOctet cs with
  | none =>
    rw [h1] at h
    exact Option.noConfusion h
  | some p1 =>
    obtain ⟨a1, r1⟩ := p1
    rw [h1] at h
    dsimp only at h
    cases hd1 : readGivenChar '.' r1 with
    | none =>
      rw [hd1] at h
      exact Option.noConfusion h
    | some r1b =>
      rw [hd1] at h
      dsimp only at h
      cases h2 : readOctet r1b with
      | none =>
        rw [h2] at h
        exact Option.noConfusion h
      | some p2 =>
        obtain ⟨a2, r2⟩ := p2
        rw [h2] at h
        dsimp only at h
        cases hd2 : readGivenChar '.' r2 with
        | none =>
          rw [hd2] at h
          exact Option.noConfusion h
        | some r2b =>
          rw [hd2] at h
          dsimp only at h
          cases h3 : readOctet r2b with
          | none =>
            rw [h3] at h
            exact Option.noConfusion h
          | some p3 =>
            obtain ⟨a3, r3⟩ := p3
            rw [h3] at h
            dsimp only at h
            cases hd3 : readGivenChar '.' r3 with
            | none =>
              rw [hd3] at h
              exact Option.noConfusion h
            | some r3b =>
              rw [hd3] at h
              dsimp only at h
              cases h4 : readOctet r3b with
              | none =>
                rw [h4] at h
                exact Option.noConfusion h
              | some p4 =>
                obtain ⟨a4, r4⟩ := p4
                rw [h4] at h
                dsimp only at h
                injection h with h
                injection h with hip hrest
                injection hip with ha hip
                injection hip with hb hip
                injection hip with hc hd
                exact ⟨ha ▸ (readNumber_some 10 256 a1 (some 3) false cs r1 h1).1,
                  hb ▸ (readNumber_some 10 256 a2 (some 3) false r1b r2 h2).1,
                  hc ▸ (readNumber_some 10 256 a3 (some 3) false r2b r3 h3).1,
                  hd ▸ (readNumber_some 10 256 a4 (some 3) false r3b r4 h4).1⟩

/-- A successful separated read comes from a successful plain read. -/
theorem readSep_some (sep : Char) (b : Bool) (inner : Str → Option (α × Str)) (cs : Str)
    (q : α × Str) (h : readSep sep b inner cs = some q) : ∃ u, inner u = some q := by
  unfold readSep at h
  cases b with
  | false => exact ⟨cs, h⟩
  | true =>
    rw [if_pos rfl] at h
    cases hg : readGivenChar sep cs with
    | none =>
      rw [hg] at h
      exact Option.noConfusion h
    | some u =>
      rw [hg] at h
      exact ⟨u, h⟩

/-- Groups produced by the group loop are 16-bit values, and at most `n`
of them are produced. -/
theorem readGroups_bound : ∀ (n : Nat) (b : Bool) (cs : Str) (gs : List Nat) (e : Bool)
    (r : Str), readGroups n b cs = (gs, e, r) → gs.length ≤ n ∧ ∀ g ∈ gs, g < 65536 := by
  intro n
  induction n with
  | zero =>
    intro b cs gs e r h
    injection h with h1 h2
    subst h1
    exact ⟨by simp, by simp⟩
  | succ m ih =>
    intro b cs gs e r h
    rw [readGroups] at h
    cases hv : (if 1 ≤ m then readSep ':' b readIpv4 cs else none) with
    | some p =>
      obtain ⟨⟨a1, b1, c1, d1⟩, r1⟩ := p
      rw [hv] at h
      dsimp only at h
      injection h with h1 h2
      injection h2 with h2 h3
      subst h1
      have hm1 : 1 ≤ m := by
        by_contra hm
        rw [if_neg hm] at hv
        exact Option.noConfusion hv
      rw [if_pos hm1] at hv
      obtain ⟨u, hu⟩ := readSep_some ':' b readIpv4 cs _ hv
      have hb := readIpv4_bounds u a1 b1 c1 d1 r1 hu
      refine ⟨by simp; omega, ?_⟩
      intro g hg
      rcases List.mem_cons.mp hg with rfl | hg2
      · omega
      rcases List.mem_cons.mp hg2 with rfl | hg3
      · omega
      · simp at hg3
    | none =>
      rw [hv] at h
      dsimp only at h
      cases hgr : readSep ':' b readGroup cs with
      | none =>
        rw [hgr] at h
        dsimp only at h
        injection h with h1 h2
        subst h1
        exact ⟨by simp, by simp⟩
      | some p =>
        obtain ⟨g, r1⟩ := p
        rw [hgr] at h
        dsimp only at h
        obtain ⟨⟨gs1, e1, rr⟩, hrec⟩ : ∃ t, readGroups m true r1 = t := ⟨_, rfl⟩
        rw [hrec] at h
        dsimp only at h
        injection h with h1 h2
        injection h2 with h2 h3
        subst h1
        obtain ⟨u, hu⟩ := readSep_some ':' b readGroup cs _ hgr
        have hglt : g < 65536 := (readNumber_some 16 65536 g (some 4) true u r1 hu).1
        have hih := ih true r1 gs1 e1 rr hrec
        refine ⟨by simp; omega, ?_⟩
        intro x hx
        rcases List.mem_cons.mp hx with rfl | hx2
        · exact hglt
        · exact hih.2 x hx2

/-- The segment list produced by `read_ipv6_addr` has exactly eight
16-bit groups. -/
theorem readIpv6_WF (cs : Str) (segs : List Nat) (rest : Str)
    (h : readIpv6 cs = some (segs, rest)) :
    segs.length = 8 ∧ ∀ g ∈ segs, g < 65536 := by
  unfold readIpv6 at h
  obtain ⟨⟨head, hv4, r⟩, hh⟩ : ∃ t, readGroups 8 false cs = t := ⟨_, rfl⟩
  rw [hh] at h
  dsimp only at h
  have hhb := readGroups_bound 8 false cs head hv4 r hh
  by_cases h8 : head.length = 8
  · rw [if_pos h8] at h
    injection h with h
    injection h with h1 h2
    subst h1
    exact ⟨h8, hhb.2⟩
  · rw [if_neg h8] at h
    cases hv4 with
    | true => exact Option.noConfusion h
    | false =>
      rw [if_neg Bool.false_ne_true] at h
      cases hg1 : readGivenChar ':' r with
      | none =>
        rw [hg1] at h
        exact Option.noConfusion h
      | some r1 =>
        rw [hg1] at h
        dsimp only at h
        cases hg2 : readGivenChar ':' r1 with
        | none =>
          rw [hg2] at h
          exact Option.noConfusion h
        | some r2 =>
          rw [hg2] at h
          dsimp only at h
          obtain ⟨⟨tail, e2, r3⟩, ht⟩ : ∃ t, readGroups (8 - (head.length + 1)) false r2 = t :=
            ⟨_, rfl⟩
          rw [ht] at h
          dsimp only at h
          have htb := readGroups_bound _ false r2 tail e2 r3 ht
          injection h with h
          injection h with h1 h2
          subst h1
          constructor
          · simp only [List.length_append, List.length_replicate]
            omega
          · intro g hg
            rcases List.mem_append.mp hg with hg | hg
            · rcases List.mem_append.mp hg with hg | hg
              · exact hhb.2 g hg
              · have := List.eq_of_mem_replicate hg
                omega
            · exact htb.2 g hg


/-- No dot occurs in a rendered decimal number. -/
theorem dot_not_in_natToChars (n : Nat) : ('.' : Char) ∉ natToChars 10 n := by
  intro hmem
  exact absurd (natToChars_all_digits 10 n (Or.inl rfl) '.' hmem) (by decide)

/-- Ports parse back from their canonical rendering. -/
theorem readPort_roundtrip (p : Nat) (hp : p < 65536) (rest : Str)
    (hrest : ∀ c, rest.head? = some c → isRadixDigit 10 c = false) :
    readPort (':' :: (natToChars 10 p ++ rest)) = some (p, rest) := by
  unfold readPort
  rw [readGivenChar_self]
  exact readNumber_natToChars 10 p 65536 none true rest (Or.inl rfl) hp
    (fun m hm => Option.noConfusion hm) hrest

/-- Scope ids parse back from their canonical rendering. -/
theorem readScopeId_roundtrip (sc : Nat) (hsc : sc < 4294967296) (rest : Str)
    (hrest : ∀ c, rest.head? = some c → isRadixDigit 10 c = false) :
    readScopeId ('%' :: (natToChars 10 sc ++ rest)) = some (sc, rest) := by
  unfold readScopeId
  rw [readGivenChar_self]
  exact readNumber_natToChars 10 sc 4294967296 none true rest (Or.inl rfl) hsc
    (fun m hm => Option.noConfusion hm) hrest

/-- A successful port read is a 16-bit value. -/
theorem readPort_bound (cs : Str) (p : Nat) (r : Str) (h : readPort cs = some (p, r)) :
    p < 65536 := by
  unfold readPort at h
  cases hg : readGivenChar ':' cs with
  | none =>
    rw [hg] at h
    exact Option.noConfusion h
  | some u =>
    rw [hg] at h
    exact (readNumber_some 10 65536 p none true u r h).1

/-- A successful scope read is a 32-bit value. -/
theorem readScopeId_bound (cs : Str) (sc : Nat) (r : Str) (h : readScopeId cs = some (sc, r)) :
    sc < 4294967296 := by
  unfold readScopeId at h
  cases hg : readGivenChar '%' cs with
  | none =>
    rw [hg] at h
    exact Option.noConfusion h
  | some u =>
    rw [hg] at h
    exact (readNumber_some 10 4294967296 sc none true u r h).1

/-- Addresses produced by the socket-address reader are well-formed. -/
theorem readSocketAddr_WF (cs : Str) (a : SocketAddr) (r : Str)
    (h : readSocketAddr cs = some (a, r)) : SockWF a := by
  unfold readSocketAddr at h
  cases h4 : readSocketAddrV4 cs with
  | some p =>
    obtain ⟨a4, r4⟩ := p
    rw [h4] at h
    dsimp only at h
    injection h with h
    injection h with h1 h2
    subst h2
    rw [← h1]
    unfold readSocketAddrV4 at h4
    cases hip : readIpv4 cs with
    | none =>
      rw [hip] at h4
      exact Option.noConfusion h4
    | some q =>
      obtain ⟨⟨x, y, z, w⟩, ri⟩ := q
      rw [hip] at h4
      dsimp only at h4
      cases hpt : readPort ri with
      | none =>
        rw [hpt] at h4
        exact Option.noConfusion h4
      | some q2 =>
        obtain ⟨pt, rp⟩ := q2
        rw [hpt] at h4
        dsimp only at h4
        injection h4 with h4
        injection h4 with h4a h4b
        rw [← h4a]
        have hb := readIpv4_bounds cs x y z w ri hip
        have hpb := readPort_bound ri pt rp hpt
        exact ⟨hb.1, hb.2.1, hb.2.2.1, hb.2.2.2, hpb⟩
  | none =>
    rw [h4] at h
    dsimp only at h
    cases h6 : readSocketAddrV6 cs with
    | none =>
      rw [h6] at h
      exact Option.noConfusion h
    | some p =>
      obtain ⟨a6, r6⟩ := p
      rw [h6] at h
      dsimp only at h
      injection h with h
      injection h with h1 h2
      subst h2
      rw [← h1]
      unfold readSocketAddrV6 at h6
      cases hbr : readGivenChar '[' cs with
      | none =>
        rw [hbr] at h6
        exact Option.noConfusion h6
      | some u1 =>
        rw [hbr] at h6
        dsimp only at h6
        cases hip : readIpv6 u1 with
        | none =>
          rw [hip] at h6
          exact Option.noConfusion h6
        | some q =>
          obtain ⟨segs, u2⟩ := q
          rw [hip] at h6
          dsimp only at h6
          have hseg := readIpv6_WF u1 segs u2 hip
          have hscope : ∀ sc u3, (match readScopeId u2 with
              | some (s, r) => (s, r)
              | none => ((0 : Nat), u2)) = (sc, u3) → sc < 4294967296 := by
            intro sc u3 hm
            cases hs : readScopeId u2 with
            | none =>
              rw [hs] at hm
              dsimp only at hm
              injection hm with hm1 hm2
              omega
            | some q3 =>
              obtain ⟨sv, sr⟩ := q3
              rw [hs] at hm
              dsimp only at hm
              injection hm with hm1 hm2
              rw [← hm1]
              exact readScopeId_bound u2 sv sr hs
          obtain ⟨⟨sc, u3⟩, hm⟩ : ∃ t, (match readScopeId u2 with
              | some (s, r) => (s, r)
              | none => ((0 : Nat), u2)) = t := ⟨_, rfl⟩
          rw [hm] at h6
          dsimp only at h6
          cases hcl : readGivenChar ']' u3 with
          | none =>
            rw [hcl] at h6
            exact Option.noConfusion h6
          | some u4 =>
            rw [hcl] at h6
            dsimp only at h6
            cases hpt : readPort u4 with
            | none =>
              rw [hpt] at h6
              exact Option.noConfusion h6
            | some q4 =>
              obtain ⟨pt, u5⟩ := q4
              rw [hpt] at h6
              dsimp only at h6
              injection h6 with h6
              injection h6 with h6a h6b
              rw [← h6a]
              exact ⟨hseg.1, hseg.2, readPort_bound u4 pt u5 hpt, rfl,
                hscope sc u3 hm⟩


/-- Printing then reading an IPv4 socket address round-trips. -/
theorem readSocketAddrV4_roundtrip (x y z w pt : Nat)
    (hWF : SockWF (.v4 ⟨(x, y, z, w), pt⟩)) :
    readSocketAddrV4 (socketAddrV4ToChars ⟨(x, y, z, w), pt⟩)
      = some (⟨(x, y, z, w), pt⟩, []) := by
  obtain ⟨hx, hy, hz, hw, hp⟩ := hWF
  unfold readSocketAddrV4
  have htext : socketAddrV4ToChars ⟨(x, y, z, w), pt⟩
      = ipv4ToChars (x, y, z, w) ++ (':' :: (natToChars 10 pt ++ [])) := by
    unfold socketAddrV4ToChars
    simp
  rw [htext]
  rw [readIpv4_roundtrip x y z w hx hy hz hw _ (cons_head_not_digit 10 ':' (by decide) _)]
  dsimp only
  rw [readPort_roundtrip pt hp [] (fun c hc => Option.noConfusion hc)]

/-- The IPv4 socket-address reader fails at an opening bracket. -/
theorem readSocketAddrV4_bracket (cs : Str) : readSocketAddrV4 ('[' :: cs) = none := by
  unfold readSocketAddrV4
  rw [readIpv4_none _ (cons_head_not_digit 10 '[' (by decide) _)]

/-- Printing then reading an IPv6 socket address round-trips. -/
theorem readSocketAddrV6_roundtrip (segs : List Nat) (pt fi sc : Nat)
    (hWF : SockWF (.v6 ⟨segs, pt, fi, sc⟩)) :
    readSocketAddrV6 (socketAddrV6ToChars ⟨segs, pt, fi, sc⟩)
      = some (⟨segs, pt, fi, sc⟩, []) := by
  obtain ⟨h8, hg, hp, hfi, hsc⟩ := hWF
  have hfi2 : fi = 0 := hfi
  subst hfi2
  by_cases hsc0 : sc = 0
  · subst hsc0
    have htext : socketAddrV6ToChars ⟨segs, pt, 0, 0⟩
        = '[' :: (ipv6ToChars segs ++ (']' :: ':' :: natToChars 10 pt)) := rfl
    rw [htext]
    unfold readSocketAddrV6
    rw [readGivenChar_self]
    dsimp only
    rw [readIpv6_roundtrip segs h8 hg (']' :: ':' :: natToChars 10 pt)
        (Or.inr (Or.inl ⟨_, rfl⟩))
        (by
          intro hm
          rcases List.mem_cons.mp hm with hb | hm2
          · exact absurd hb (by decide)
          rcases List.mem_cons.mp hm2 with hb | hm3
          · exact absurd hb (by decide)
          exact dot_not_in_natToChars pt hm3)]
    dsimp only
    rw [show readScopeId (']' :: ':' :: natToChars 10 pt) = none from rfl]
    dsimp only
    rw [readGivenChar_self]
    dsimp only
    rw [show (':' :: natToChars 10 pt : Str) = ':' :: (natToChars 10 pt ++ []) by simp]
    rw [readPort_roundtrip pt hp [] (fun c hc => Option.noConfusion hc)]
  · have htext : socketAddrV6ToChars ⟨segs, pt, 0, sc⟩
        = '[' :: (ipv6ToChars segs ++
            ('%' :: (natToChars 10 sc ++ (']' :: ':' :: natToChars 10 pt)))) := by
      unfold socketAddrV6ToChars
      rw [if_neg hsc0]
    rw [htext]
    unfold readSocketAddrV6
    rw [readGivenChar_self]
    dsimp only
    rw [readIpv6_roundtrip segs h8 hg
        ('%' :: (natToChars 10 sc ++ (']' :: ':' :: natToChars 10 pt)))
        (Or.inr (Or.inr ⟨_, rfl⟩))
        (by
          intro hm
          rcases List.mem_cons.mp hm with hb | hm2
          · exact absurd hb (by decide)
          rcases List.mem_append.mp hm2 with hm3 | hm4
          · exact dot_not_in_natToChars sc hm3
          rcases List.mem_cons.mp hm4 with hb | hm5
          · exact absurd hb (by decide)
          rcases List.mem_cons.mp hm5 with hb | hm6
          · exact absurd hb (by decide)
          exact dot_not_in_natToChars pt hm6)]
    dsimp only
    rw [readScopeId_roundtrip sc hsc (']' :: ':' :: natToChars 10 pt)
        (cons_head_not_digit 10 ']' (by decide) _)]
    dsimp only
    rw [readGivenChar_self]
    dsimp only
    rw [show (':' :: natToChars 10 pt : Str) = ':' :: (natToChars 10 pt ++ []) by simp]
    rw [readPort_roundtrip pt hp [] (fun c hc => Option.noConfusion hc)]

/-- Printing then parsing any well-formed socket address round-trips. -/
theorem parseSocketAddr_roundtrip (a : SocketAddr) (hWF : SockWF a) :
    parseSocketAddr (socketAddrToChars a) = some a := by
  cases a with
  | v4 a4 =>
    obtain ⟨⟨x, y, z, w⟩, pt⟩ := a4
    unfold parseSocketAddr readSocketAddr
    rw [show socketAddrToChars (.v4 ⟨(x, y, z, w), pt⟩)
        = socketAddrV4ToChars ⟨(x, y, z, w), pt⟩ from rfl]
    rw [readSocketAddrV4_roundtrip x y z w pt hWF]
  | v6 a6 =>
    obtain ⟨segs, pt, fi, sc⟩ := a6
    unfold parseSocketAddr readSocketAddr
    rw [show socketAddrToChars (.v6 ⟨segs, pt, fi, sc⟩)
        = socketAddrV6ToChars ⟨segs, pt, fi, sc⟩ from rfl]
    have hbr : ∃ t, socketAddrV6ToChars ⟨segs, pt, fi, sc⟩ = '[' :: t := by
      unfold socketAddrV6ToChars
      split
      · exact ⟨_, rfl⟩
      · exact ⟨_, rfl⟩
    obtain ⟨t, ht⟩ := hbr
    rw [ht, readSocketAddrV4_bracket, ← ht]
    rw [readSocketAddrV6_roundtrip segs pt fi sc hWF]

/-- A successful socket-address read starts with a decimal digit or an
opening bracket. -/
theorem readSocketAddr_head (cs : Str) (a : SocketAddr) (r : Str)
    (h : readSocketAddr cs = some (a, r)) :
    ∃ c t, cs = c :: t ∧ (isRadixDigit 10 c = true ∨ c = '[') := by
  unfold readSocketAddr at h
  cases h4 : readSocketAddrV4 cs with
  | some p =>
    unfold readSocketAddrV4 at h4
    cases hip : readIpv4 cs with
    | none =>
      rw [hip] at h4
      exact Option.noConfusion h4
    | some q =>
      obtain ⟨⟨x, y, z, w⟩, ri⟩ := q
      unfold readIpv4 at hip
      cases ho : readOctet cs with
      | none =>
        rw [ho] at hip
        exact Option.noConfusion hip
      | some q2 =>
        obtain ⟨v, rr⟩ := q2
        obtain ⟨_, ds, hcs, hne, hds⟩ := readNumber_some 10 256 v (some 3) false cs rr ho
        cases ds with
        | nil => exact absurd rfl hne
        | cons c dt =>
          exact ⟨c, dt ++ rr, by simpa using hcs, Or.inl (hds c (by simp))⟩
  | none =>
    rw [h4] at h
    dsimp only at h
    cases h6 : readSocketAddrV6 cs with
    | none =>
      rw [h6] at h
      exact Option.noConfusion h
    | some p =>
      unfold readSocketAddrV6 at h6
      cases hbr : readGivenChar '[' cs with
      | none =>
        rw [hbr] at h6
        exact Option.noConfusion h6
      | some u =>
        cases cs with
        | nil => exact Option.noConfusion hbr
        | cons c t =>
          refine ⟨c, t, rfl, Or.inr ?_⟩
          by_cases hc : c = '['
          · exact hc
          · unfold readGivenChar at hbr
            dsimp only at hbr
            rw [if_neg hc] at hbr
            exact Option.noConfusion hbr

/-- Numeric socket-address text never starts with `/` or `./`. -/
theorem parseSocketAddr_not_path (s : Str) (a : SocketAddr) (h : parseSocketAddr s = some a) :
    (['/'] : Str).isPrefixOf s = false ∧ (['.', '/'] : Str).isPrefixOf s = false := by
  unfold parseSocketAddr at h
  cases hr : readSocketAddr s with
  | none =>
    rw [hr] at h
    exact Option.noConfusion h
  | some p =>
    obtain ⟨a2, r⟩ := p
    obtain ⟨c, t, rfl, hc⟩ := readSocketAddr_head s a2 r hr
    constructor
    · apply Bool.eq_false_iff.mpr
      intro htrue
      have hpre := List.isPrefixOf_iff_prefix.mp htrue
      rw [List.cons_prefix_cons] at hpre
      rcases hc with hdig | hbrk
      · rw [← hpre.1] at hdig
        exact absurd hdig (by decide)
      · rw [hbrk] at hpre
        exact absurd hpre.1 (by decide)
    · apply Bool.eq_false_iff.mpr
      intro htrue
      have hpre := List.isPrefixOf_iff_prefix.mp htrue
      rw [List.cons_prefix_cons] at hpre
      rcases hc with hdig | hbrk
      · rw [← hpre.1] at hdig
        exact absurd hdig (by decide)
      · rw [hbrk] at hpre
        exact absurd hpre.1 (by decide)

/-- Addresses produced by full-string parsing are well-formed. -/
theorem parseSocketAddr_WF (s : Str) (a : SocketAddr) (h : parseSocketAddr s = some a) :
    SockWF a := by
  unfold parseSocketAddr at h
  cases hr : readSocketAddr s with
  | none =>
    rw [hr] at h
    exact Option.noConfusion h
  | some p =>
    obtain ⟨a2, r⟩ := p
    rw [hr] at h
    cases r with
    | nil =>
      dsimp only at h
      injection h with h
      subst h
      exact readSocketAddr_WF s a2 [] hr
    | cons c t =>
      dsimp only at h
      exact Option.noConfusion h


/-- Claim C4: parse followed by format is a round trip. For every valid
numeric `ip:port` text (IPv4 or bracketed IPv6), parsing keeps that exact
address (`from_str` takes the single numeric candidate) and formatting it
yields the canonical equivalent form — text that parses back to the very
same address, bracketed for IPv6 — and for every local-path text
beginning with `/`, parse then format is the exact identity. -/
theorem claim_C4 (resolve : Resolver) (s : Str) (a : SocketAddr)
    (h : parseSocketAddr s = some a) (p : Str) (hp : (['/'] : Str).isPrefixOf p = true) :
    Addr.fromStr resolve s = .ok (.Inet a)
  ∧ parseSocketAddr (socketAddrToChars a) = some a
  ∧ (a.isV6 = true → ∃ t, socketAddrToChars a = '[' :: t)
  ∧ Addr.fromStr resolve p = .ok (.Unix p)
  ∧ Addr.display (.Unix p) = p := by
  obtain ⟨hns, hnd⟩ := parseSocketAddr_not_path s a h
  refine ⟨?_, ?_, ?_, ?_, rfl⟩
  · simp [Addr.fromStr, hns, hnd, toSocketAddrs, h]
  · exact parseSocketAddr_roundtrip a (parseSocketAddr_WF s a h)
  · intro hv6
    cases a with
    | v4 a4 => exact Bool.noConfusion hv6
    | v6 a6 =>
      obtain ⟨segs, pt, fi, sc⟩ := a6
      show ∃ t, socketAddrV6ToChars ⟨segs, pt, fi, sc⟩ = '[' :: t
      unfold socketAddrV6ToChars
      split
      · exact ⟨_, rfl⟩
      · exact ⟨_, rfl⟩
  · simp [Addr.fromStr, hp]

/-- Witness for claim C4 at the numeric text `127.0.0.1:80` and the
local path `/tmp/app.sock`. -/
theorem claim_C4_witness :
    parseSocketAddr ("127.0.0.1:80".data) = some (.v4 ⟨(127, 0, 0, 1), 80⟩)
  ∧ ((['/'] : Str).isPrefixOf ("/tmp/app.sock".data) = true)
  ∧ Addr.fromStr resolverTwo ("127.0.0.1:80".data) = .ok (.Inet (.v4 ⟨(127, 0, 0, 1), 80⟩))
  ∧ parseSocketAddr (socketAddrToChars (.v4 ⟨(127, 0, 0, 1), 80⟩))
      = some (.v4 ⟨(127, 0, 0, 1), 80⟩)
  ∧ Addr.fromStr resolverTwo ("/tmp/app.sock".data) = .ok (.Unix ("/tmp/app.sock".data)) :=
  ⟨rfl, by decide,
   (claim_C4 resolverTwo ("127.0.0.1:80".data) (.v4 ⟨(127, 0, 0, 1), 80⟩) rfl
     ("/tmp/app.sock".data) (by decide)).1,
   (claim_C4 resolverTwo ("127.0.0.1:80".data) (.v4 ⟨(127, 0, 0, 1), 80⟩) rfl
     ("/tmp/app.sock".data) (by decide)).2.1,
   (claim_C4 resolverTwo ("127.0.0.1:80".data) (.v4 ⟨(127, 0, 0, 1), 80⟩) rfl
     ("/tmp/app.sock".data) (by decide)).2.2.2.1⟩

end ASC
